import Mathlib

/-!
Cart-pole simulator (`cart.c`): embedding and verified properties.

The C file keeps the cart-pole in a global `static state s`; here every
function takes the state and returns the new one.

Modelling conventions.

* A C `float` is a `CFloat`: either an exact rational number or `nan`.
  Arithmetic is exact on rationals (rounding and overflow to infinity are not
  modelled) and propagates `nan`; every ordered comparison involving `nan` is
  false, as in IEEE 754.  The decimal literals of the source are the exact
  rationals they denote.  Where a statement is about the value a `float`
  variable holds for a given decimal, `to_float` gives that value.
* `cos` and `sin` come from `<math.h>`; they are the two fields of a `Libm`
  value that the physics takes as a parameter.
* `int` and `long` variables are integers (`Int`); the counters of `main` are
  not wrapped (signed overflow is undefined in C).
* The functions of `ase_ace.h` and of the graphics module are external.  Their
  answers during one loop iteration are collected in an `Ext` record, and
  every call made by `main` is appended to a log of `Call` events.
-/

namespace Cart

/-! ## Floating-point values -/

/-- A C floating-point value: a rational number or NaN. -/
inductive CFloat where
  | num (q : ℚ)
  | nan
deriving DecidableEq

namespace CFloat

/-- The C comparison `a < b`; false as soon as one side is NaN. -/
def lt : CFloat → CFloat → Bool
  | num a, num b => decide (a < b)
  | _, _ => false

/-- The C comparison `a > b`; false as soon as one side is NaN. -/
def gt : CFloat → CFloat → Bool
  | num a, num b => decide (a > b)
  | _, _ => false

/-- Unary minus. -/
def neg : CFloat → CFloat
  | num a => num (-a)
  | nan => nan

/-- Addition, NaN-propagating. -/
def add : CFloat → CFloat → CFloat
  | num a, num b => num (a + b)
  | _, _ => nan

/-- Subtraction, NaN-propagating. -/
def sub : CFloat → CFloat → CFloat
  | num a, num b => num (a - b)
  | _, _ => nan

/-- Multiplication, NaN-propagating. -/
def mul : CFloat → CFloat → CFloat
  | num a, num b => num (a * b)
  | _, _ => nan

/-- Division, NaN-propagating.  The two divisors of `update_state` are never
zero (see `t_acc_divisor_ne_zero`), so division by zero plays no role. -/
def div : CFloat → CFloat → CFloat
  | num a, num b => num (a / b)
  | _, _ => nan

/-- The library function `fabs`. -/
def fabs : CFloat → CFloat
  | num a => num |a|
  | nan => nan

/-- Application of a library function on numbers; NaN is mapped to NaN. -/
def map (f : ℚ → ℚ) : CFloat → CFloat
  | num a => num (f a)
  | nan => nan

instance : Neg CFloat := ⟨neg⟩
instance : Add CFloat := ⟨add⟩
instance : Sub CFloat := ⟨sub⟩
instance : Mul CFloat := ⟨mul⟩
instance : Div CFloat := ⟨div⟩

/-- Conversion of a C `int` to a floating-point value. -/
def ofInt (i : Int) : CFloat := num (i : ℚ)

end CFloat

open CFloat

/-- Rounding of a rational number to the nearest integer, ties to the even
one. -/
def round_half_even (q : ℚ) : Int :=
  if q - ⌊q⌋ < 1 / 2 then ⌊q⌋
  else if 1 / 2 < q - ⌊q⌋ then ⌊q⌋ + 1
  else if ⌊q⌋ % 2 = 0 then ⌊q⌋
  else ⌊q⌋ + 1

/-- The binary32 (`float`) value nearest to `q`: 24 significant bits, least
exponent -126, ties to even; overflow to infinity is not modelled.  C applies
this conversion when a `double` such as the literal `0.2` is passed for a
`float` parameter or stored in a `float` field. -/
def to_float (q : ℚ) : ℚ :=
  if q = 0 then 0
  else
    let e : Int := max (Int.log 2 |q|) (-126)
    (round_half_even (q / 2 ^ (e - 23)) : ℚ) * 2 ^ (e - 23)

/-- The two `<math.h>` functions used by the physics. -/
structure Libm where
  cos : ℚ → ℚ
  sin : ℚ → ℚ

/-- A rational stand-in for the library: the Taylor polynomials of degree 4
and 5 around zero.  It is used only to instantiate statements at concrete
inputs. -/
def taylor_libm : Libm where
  cos := fun x => 1 - x ^ 2 / 2 + x ^ 4 / 24
  sin := fun x => x - x ^ 3 / 6 + x ^ 5 / 120

/-! ## Constants (`#define`s of the source) -/

def LEFT_LIMIT : CFloat := num (-3.0)
def RIGHT_LIMIT : CFloat := num 3.0
def THETA_LIMIT : CFloat := num 0.2
def CART_MASS : CFloat := num 1.0
def POLE_MASS : CFloat := num 0.1
def POLE_LEN : CFloat := num 0.5
def FORCE : Int := 10
def GRAVITY : CFloat := num 9.8

def MAXDUR : Int := 40000000
def MAXFAIL : Int := 10000000
def NBOXES : Int := 162

def XL : CFloat := num 0.8
def VL : CFloat := num 0.5
def T1 : CFloat := num 0.01745
def T6 : CFloat := num 0.10472
def W50 : CFloat := num 0.87266

/-! ## Cart state and auxiliary functions -/

/-- The cart structure of the source. -/
structure state where
  pos : CFloat
  speed : CFloat
  theta : CFloat
  omega : CFloat
deriving DecidableEq

/-- Source `set_state`: overwrite the four fields. -/
def set_state (x v t w : CFloat) : state :=
  { pos := x, speed := v, theta := t, omega := w }

/-- Source `out_limits`. -/
def out_limits (s : state) : Int :=
  if (s.pos.gt RIGHT_LIMIT) || (s.pos.lt LEFT_LIMIT) ||
      ((fabs s.theta).gt THETA_LIMIT) then 1
  else 0

/-- The value assigned to `t_acc` in `update_state`.  The leading `4/3` is a
quotient of two `int` literals, hence C integer division. -/
def t_acc (m : Libm) (s : state) (force : CFloat) : CFloat :=
  let ct := s.theta.map m.cos
  let st := s.theta.map m.sin
  ((CART_MASS + POLE_MASS) * GRAVITY * st -
      (force + POLE_MASS * POLE_LEN * s.omega * s.omega * st) * ct) /
    (ofInt (Int.tdiv 4 3) * (CART_MASS + POLE_MASS) * POLE_LEN -
      POLE_MASS * POLE_LEN * ct * ct)

/-- The value assigned to `x_acc` in `update_state`. -/
def x_acc (m : Libm) (s : state) (force : CFloat) : CFloat :=
  let ct := s.theta.map m.cos
  let st := s.theta.map m.sin
  let t_acc := t_acc m s force
  (force + POLE_MASS * POLE_LEN * (s.omega * s.omega * st - t_acc * ct)) /
    (POLE_MASS + CART_MASS)

/-- Source `update_state`: the four fields are updated one after the other, in
the order of the source; the result is the new state and the returned flag. -/
def update_state (m : Libm) (s : state) (force : CFloat) : state × Int :=
  let t_acc := t_acc m s force
  let x_acc := x_acc m s force
  let dt : CFloat := num 0.01
  let s := { s with pos := s.pos + s.speed * dt }
  let s := { s with speed := s.speed + x_acc * dt }
  let s := { s with theta := s.theta + s.omega * dt }
  let s := { s with omega := s.omega + t_acc * dt }
  (s, out_limits s)

/-- Source `decode_state` (the active definition). -/
def decode_state (s : state) : Int :=
  let box : Int :=
    if s.pos.lt (-XL) then 0
    else if s.pos.lt XL then 1
    else 2
  let box : Int :=
    if s.speed.lt (-VL) then box
    else if s.speed.lt VL then box + 3
    else box + 6
  let box : Int :=
    if s.theta.lt (-T6) then box
    else if s.theta.lt (-T1) then box + 9
    else if s.theta.lt (num 0) then box + 18
    else if s.theta.lt T1 then box + 27
    else if s.theta.lt T6 then box + 36
    else box + 45
  let box : Int :=
    if s.omega.lt (-W50) then box
    else if s.omega.lt W50 then box + 54
    else box + 108
  box

/-! ### The per-axis decoders of the "second option" (commented out in the
source, after `main`) -/

def decode_x (x : CFloat) : Int :=
  if x.lt (-XL) then 0
  else if x.lt XL then 1
  else 2

def decode_v (v : CFloat) : Int :=
  if v.lt (-VL) then 0
  else if v.lt VL then 1
  else 2

def decode_t (t : CFloat) : Int :=
  if t.lt (-T6) then 0
  else if t.lt (-T1) then 1
  else if t.lt (num 0) then 2
  else if t.lt T1 then 3
  else if t.lt T6 then 4
  else 5

def decode_w (w : CFloat) : Int :=
  if w.lt (-W50) then 0
  else if w.lt W50 then 1
  else 2

/-! ## The learning loop (`main`) -/

/-- What the external modules answer during one pass of the loop: the flags
`stop` and `view` as `read_key` leaves them, and the results of the three
learning-controller functions that return a value. -/
structure Ext where
  stop : Int
  view : Int
  ase_output : Int → Int
  ace_output : Int → CFloat
  secondary_reinforce : Int → CFloat

/-- The calls made by `main`, with their arguments. -/
inductive Call where
  | init_graphics
  | init_net (n : Int)
  | clear_eligibilities_traces
  | set_state (x v t w : CFloat)
  | decode_state
  | read_key
  | display_cart (s : state)
  | ase_output (box : Int)
  | update_eligibilities_traces (box y : Int)
  | update_state (force : CFloat)
  | update_info (epoch maxd : Int)
  | ace_output (box : Int)
  | secondary_reinforce (r : Int)
  | update_weights (sr : CFloat)
  | decay_eligibilities_traces
  | terminate_graphics
  | printf (failures maxd : Int)
deriving DecidableEq

/-- The global cart state, the local variables of `main`, and the log of the
calls made so far. -/
structure vars where
  s : state
  total_steps : Int
  duration : Int
  maxd : Int
  failures : Int
  box : Int
  y : Int
  p : CFloat
  r : Int
  sr : CFloat
  fail : Int
  force : CFloat
  log : List Call

/-- Append one call to the log. -/
def vars.call (v : vars) (c : Call) : vars := { v with log := v.log ++ [c] }

/-- Lines 124-132 of `main`: everything before the loop.  The argument holds
the indeterminate initial contents of the uninitialised locals. -/
def main_init (g : vars) : vars :=
  let v := { g with log := [Call.init_graphics] }
  let v := { v with total_steps := 0 }
  let v := { v with duration := 0 }
  let v := { v with maxd := 0 }
  let v := { v with failures := 0 }
  let v := v.call (.init_net NBOXES)
  let v := v.call .clear_eligibilities_traces
  let v := { v.call (.set_state (ofInt 0) (ofInt 0) (ofInt 0) (ofInt 0)) with
    s := set_state (ofInt 0) (ofInt 0) (ofInt 0) (ofInt 0) }
  let v := { v.call .decode_state with box := decode_state v.s }
  v

/-- Lines 142-151: optional display, the two counter increments, action
selection, the physics step and the re-decoding of the box. -/
def act_and_step (m : Libm) (e : Ext) (v : vars) : vars :=
  let v := if e.view ≠ 0 then v.call (.display_cart v.s) else v
  let v := { v with duration := v.duration + 1 }
  let v := { v with total_steps := v.total_steps + 1 }
  let v := { v.call (.ase_output v.box) with y := e.ase_output v.box }
  let v := v.call (.update_eligibilities_traces v.box v.y)
  let v := { v with force := ofInt (FORCE * v.y) }
  let v := { v.call (.update_state v.force) with
    s := (update_state m v.s v.force).1, fail := (update_state m v.s v.force).2 }
  let v := { v.call .decode_state with box := decode_state v.s }
  v

/-- Lines 153-161: the branch taken when `fail` is non-zero. -/
def on_failure (v : vars) : vars :=
  let v := { v with r := -1 }
  let v := { v with p := ofInt 0 }
  let v := { v with failures := v.failures + 1 }
  let v := if v.duration > v.maxd then { v with maxd := v.duration } else v
  let v := v.call (.update_info v.failures v.maxd)
  let v := { v with duration := 0 }
  let v := { v.call (.set_state (ofInt 0) (ofInt 0) (ofInt 0) (ofInt 0)) with
    s := set_state (ofInt 0) (ofInt 0) (ofInt 0) (ofInt 0) }
  let v := { v.call .decode_state with box := decode_state v.s }
  v

/-- Lines 163-164: the branch taken when `fail` is zero. -/
def on_success (e : Ext) (v : vars) : vars :=
  let v := { v with r := 0 }
  let v := { v.call (.ace_output v.box) with p := e.ace_output v.box }
  v

/-- Lines 166-169: reinforcement, weight update, trace clearing or decay. -/
def learn (e : Ext) (v : vars) : vars :=
  let v := { v.call (.secondary_reinforce v.r) with sr := e.secondary_reinforce v.r }
  let v := v.call (.update_weights v.sr)
  let v := if v.fail ≠ 0 then v.call .clear_eligibilities_traces
    else v.call .decay_eligibilities_traces
  v

/-- Lines 142-169: the loop body after the stop test. -/
def loop_body (m : Libm) (e : Ext) (v : vars) : vars :=
  let v := act_and_step m e v
  let v := if v.fail ≠ 0 then on_failure v else on_success e v
  learn e v

/-- The `while (1)` loop fed with the external answers of its successive
passes.  The flag of the result tells whether the loop was left through
`break`; it is `false` when the answers run out first (the loop is still
running and the variables are those at the top of the next pass). -/
def while_loop (m : Libm) : List Ext → vars → vars × Bool
  | [], v => (v, false)
  | e :: es, v =>
    let v := v.call .read_key
    if e.stop ≠ 0 then (v, true)
    else while_loop m es (loop_body m e v)

/-- Lines 171-174: the code after the loop. -/
def after_loop (v : vars) : vars :=
  let v := if v.duration > v.maxd then { v with maxd := v.duration } else v
  let v := v.call .terminate_graphics
  v.call (.printf v.failures v.maxd)

/-- Source `main`; `none` when the answers supplied never set `stop`. -/
def main (m : Libm) (g : vars) (es : List Ext) : Option vars :=
  match while_loop m es (main_init g) with
  | (v, true) => some (after_loop v)
  | (_, false) => none

/-- The values held by `duration` immediately before each reset
`duration = 0` of a run of the loop, oldest first.  A reset happens in the
passes whose physics step fails; `duration` is not assigned between the physics
step and the reset, so the value is read right after `act_and_step`. -/
def reset_durations (m : Libm) : List Ext → vars → List Int
  | [], _ => []
  | e :: es, v =>
    let v := v.call .read_key
    if e.stop ≠ 0 then []
    else
      let w := act_and_step m e v
      if w.fail ≠ 0 then w.duration :: reset_durations m es (loop_body m e v)
      else reset_durations m es (loop_body m e v)

/-! ### The `decode_state` of the "second option" (commented out in the
source, after `main`) -/

def NBX : Int := 3
def NBV : Int := 3
def NBT : Int := 6
def NBW : Int := 3

/-- Source `decode_state`, second option: the per-axis decoders combined
multiplicatively. -/
def decode_state_second_option (s : state) : Int :=
  let box : Int :=
    decode_x s.pos +
      decode_v s.speed * NBX +
      decode_t s.theta * NBX * NBV +
      decode_w s.omega * NBX * NBV * NBT
  box

/-! ### Rational values of the accelerations -/

/-- The rational number assigned to `t_acc` when angle, angular velocity and
force are the numbers `t`, `w`, `f` (see `t_acc_eq_val`). -/
def t_acc_val (m : Libm) (t w f : ℚ) : ℚ :=
  ((1.0 + 0.1) * 9.8 * m.sin t - (f + 0.1 * 0.5 * w * w * m.sin t) * m.cos t) /
    (1 * (1.0 + 0.1) * 0.5 - 0.1 * 0.5 * m.cos t * m.cos t)

/-- The rational number assigned to `x_acc` on the same arguments (see
`x_acc_eq_val`). -/
def x_acc_val (m : Libm) (t w f : ℚ) : ℚ :=
  (f + 0.1 * 0.5 * (w * w * m.sin t - t_acc_val m t w f * m.cos t)) / (0.1 + 1.0)

/-! ### Repeated physics steps -/

/-- The cart state after `n` successive calls `update_state(force)` from `s`,
with no reset in between. -/
def state_after (m : Libm) (force : CFloat) (s : state) : Nat → state
  | 0 => s
  | n + 1 => (update_state m (state_after m force s n) force).1

/-- The value returned by the `n`-th of these calls (`n ≥ 1`). -/
def nth_return (m : Libm) (force : CFloat) (s : state) (n : Nat) : Int :=
  (update_state m (state_after m force s (n - 1)) force).2

/-! ### Properties of the variables at the top of a pass -/

/-- Relation between the four counters of `main`. -/
def counters_ok (v : vars) : Prop :=
  0 ≤ v.duration ∧ 0 ≤ v.failures ∧ 0 ≤ v.maxd ∧
    v.failures + v.duration ≤ v.total_steps ∧
    v.total_steps ≤ v.failures * v.maxd + v.duration ∧
    (v.failures = 0 → v.maxd = 0)

/-- The cart state has four numeric fields and is within the limits tested
by `out_limits`. -/
def within_limits (s : state) : Prop :=
  ∃ p v t w : ℚ, s = ⟨num p, num v, num t, num w⟩ ∧ -3.0 ≤ p ∧ p ≤ 3.0 ∧ |t| ≤ 0.2

/-- What the repeated-step analysis asks of the library functions on the
angles the pole can take before failure (`|x| ≤ 0.2`): the cosine lies between
`0.98` and `1`, the sine is no larger than its argument in absolute value and
has the sign of its argument.  The mathematical cosine and sine satisfy
this. -/
def small_angle_bounds (m : Libm) : Prop :=
  ∀ x : ℚ, |x| ≤ 0.2 →
    49 / 50 ≤ m.cos x ∧ m.cos x ≤ 1 ∧ |m.sin x| ≤ |x| ∧ 0 ≤ x * m.sin x

/-! ## Sample inputs used to instantiate statements -/

/-- External answers of a pass that is not stopped and whose action is `+1`. -/
def push_right : Ext where
  stop := 0
  view := 0
  ase_output := fun _ => 1
  ace_output := fun _ => num 0
  secondary_reinforce := fun _ => num 0

/-- Variables at the top of a pass with the cart 1 mm from the right block,
moving right at 1 m/s: the next physics step leaves the track. -/
def near_right_block : vars where
  s := ⟨num 2.999, num 1, num 0, num 0⟩
  total_steps := 40
  duration := 7
  maxd := 12
  failures := 3
  box := 89
  y := 1
  p := num 0
  r := 0
  sr := num 0
  fail := 0
  force := num 10
  log := []

/-- Variables at the top of the eighth pass of a first episode (no failure
so far), with the cart 1 mm from the right block moving right at 1 m/s. -/
def first_episode_near_block : vars where
  s := ⟨num 2.999, num 1, num 0, num 0⟩
  total_steps := 7
  duration := 7
  maxd := 0
  failures := 0
  box := 89
  y := 1
  p := num 0
  r := 0
  sr := num 0
  fail := 0
  force := num 10
  log := []

/-! ## Basic facts about `CFloat` -/

namespace CFloat

@[simp] theorem lt_num_num (a b : ℚ) : (num a).lt (num b) = decide (a < b) := rfl

@[simp] theorem lt_nan_left (b : CFloat) : nan.lt b = false := by
  cases b <;> rfl

@[simp] theorem lt_nan_right (a : CFloat) : a.lt nan = false := by
  cases a <;> rfl

@[simp] theorem gt_num_num (a b : ℚ) : (num a).gt (num b) = decide (a > b) := rfl

@[simp] theorem gt_nan_left (b : CFloat) : nan.gt b = false := by
  cases b <;> rfl

@[simp] theorem gt_nan_right (a : CFloat) : a.gt nan = false := by
  cases a <;> rfl

@[simp] theorem neg_num (a : ℚ) : -(num a) = num (-a) := rfl

@[simp] theorem neg_nan : -nan = nan := rfl

@[simp] theorem add_num_num (a b : ℚ) : num a + num b = num (a + b) := rfl

@[simp] theorem sub_num_num (a b : ℚ) : num a - num b = num (a - b) := rfl

@[simp] theorem mul_num_num (a b : ℚ) : num a * num b = num (a * b) := rfl

@[simp] theorem div_num_num (a b : ℚ) : num a / num b = num (a / b) := rfl

@[simp] theorem fabs_num (a : ℚ) : fabs (num a) = num |a| := rfl

@[simp] theorem fabs_nan : fabs nan = nan := rfl

@[simp] theorem map_num (f : ℚ → ℚ) (a : ℚ) : map f (num a) = num (f a) := rfl

@[simp] theorem map_nan (f : ℚ → ℚ) : map f nan = nan := rfl

end CFloat

/-! ## The quantizer `decode_state` -/

theorem decode_x_num (p : ℚ) :
    decode_x (num p) = if p < -0.8 then 0 else if p < 0.8 then 1 else 2 := by
  simp [decode_x, XL]

theorem decode_v_num (v : ℚ) :
    decode_v (num v) = if v < -0.5 then 0 else if v < 0.5 then 1 else 2 := by
  simp [decode_v, VL]

theorem decode_t_num (t : ℚ) :
    decode_t (num t) =
      if t < -0.10472 then 0 else if t < -0.01745 then 1 else if t < 0 then 2
      else if t < 0.01745 then 3 else if t < 0.10472 then 4 else 5 := by
  simp [decode_t, T1, T6]

theorem decode_w_num (w : ℚ) :
    decode_w (num w) = if w < -0.87266 then 0 else if w < 0.87266 then 1 else 2 := by
  simp [decode_w, W50]

theorem decode_x_nan : decode_x nan = 2 := by simp [decode_x]

theorem decode_v_nan : decode_v nan = 2 := by simp [decode_v]

theorem decode_t_nan : decode_t nan = 5 := by simp [decode_t]

theorem decode_w_nan : decode_w nan = 2 := by simp [decode_w]

theorem decode_x_range (x : CFloat) : 0 ≤ decode_x x ∧ decode_x x ≤ 2 := by
  unfold decode_x; split_ifs <;> omega

theorem decode_v_range (v : CFloat) : 0 ≤ decode_v v ∧ decode_v v ≤ 2 := by
  unfold decode_v; split_ifs <;> omega

theorem decode_t_range (t : CFloat) : 0 ≤ decode_t t ∧ decode_t t ≤ 5 := by
  unfold decode_t; split_ifs <;> omega

theorem decode_w_range (w : CFloat) : 0 ≤ decode_w w ∧ decode_w w ≤ 2 := by
  unfold decode_w; split_ifs <;> omega

/-- The additive offsets of `decode_state` are the per-axis bin numbers scaled
by 1, 3, 9 and 54. -/
theorem decode_state_eq_bins (s : state) :
    decode_state s =
      decode_x s.pos + 3 * decode_v s.speed + 9 * decode_t s.theta + 54 * decode_w s.omega := by
  unfold decode_state
  lift_lets
  intro b1 b2 b3 b4
  have h1 : b1 = decode_x s.pos := rfl
  have h2 : b2 = b1 + 3 * decode_v s.speed := by
    simp only [b2, decode_v]; split_ifs <;> ring
  have h3 : b3 = b2 + 9 * decode_t s.theta := by
    simp only [b3, decode_t]; split_ifs <;> ring
  have h4 : b4 = b3 + 54 * decode_w s.omega := by
    simp only [b4, decode_w]; split_ifs <;> ring
  rw [h4, h3, h2, h1]

/-- C1: for every state, `decode_state` returns `P + V + T + W`, where `P` is
0, 1 or 2 according to `pos < -0.8`, `-0.8 ≤ pos < 0.8`, `pos ≥ 0.8`; `V` is
0, 3 or 6 according to `speed < -0.5`, `-0.5 ≤ speed < 0.5`, `speed ≥ 0.5`;
`T` is 0, 9, 18, 27, 36 or 45 according to the six angle intervals bounded by
`-0.10472`, `-0.01745`, `0`, `0.01745`, `0.10472`; `W` is 0, 54 or 108
according to `omega < -0.87266`, `-0.87266 ≤ omega < 0.87266`,
`omega ≥ 0.87266` (lower bounds inclusive, upper bounds exclusive). -/
theorem decode_state_offsets (s : state) :
    ∃ P V T W : Int, decode_state s = P + V + T + W ∧
      (∀ p, s.pos = num p →
        (p < -0.8 → P = 0) ∧ (-0.8 ≤ p ∧ p < 0.8 → P = 1) ∧ (0.8 ≤ p → P = 2)) ∧
      (∀ v, s.speed = num v →
        (v < -0.5 → V = 0) ∧ (-0.5 ≤ v ∧ v < 0.5 → V = 3) ∧ (0.5 ≤ v → V = 6)) ∧
      (∀ t, s.theta = num t →
        (t < -0.10472 → T = 0) ∧ (-0.10472 ≤ t ∧ t < -0.01745 → T = 9) ∧
        (-0.01745 ≤ t ∧ t < 0 → T = 18) ∧ (0 ≤ t ∧ t < 0.01745 → T = 27) ∧
        (0.01745 ≤ t ∧ t < 0.10472 → T = 36) ∧ (0.10472 ≤ t → T = 45)) ∧
      (∀ w, s.omega = num w →
        (w < -0.87266 → W = 0) ∧ (-0.87266 ≤ w ∧ w < 0.87266 → W = 54) ∧
        (0.87266 ≤ w → W = 108)) := by
  refine ⟨decode_x s.pos, 3 * decode_v s.speed, 9 * decode_t s.theta,
    54 * decode_w s.omega, decode_state_eq_bins s, ?_, ?_, ?_, ?_⟩
  · intro p hp
    rw [hp, decode_x_num]
    refine ⟨fun h => ?_, fun h => ?_, fun h => ?_⟩
    · rw [if_pos h]
    · rw [if_neg (not_lt.mpr h.1), if_pos h.2]
    · have h1 : ¬ p < -0.8 := by intro h'; norm_num at h h'; linarith
      rw [if_neg h1, if_neg (not_lt.mpr h)]
  · intro v hv
    rw [hv, decode_v_num]
    refine ⟨fun h => ?_, fun h => ?_, fun h => ?_⟩
    · rw [if_pos h]; rfl
    · rw [if_neg (not_lt.mpr h.1), if_pos h.2]; rfl
    · have h1 : ¬ v < -0.5 := by intro h'; norm_num at h h'; linarith
      rw [if_neg h1, if_neg (not_lt.mpr h)]; rfl
  · intro t ht
    rw [ht, decode_t_num]
    refine ⟨fun h => ?_, fun h => ?_, fun h => ?_, fun h => ?_, fun h => ?_, fun h => ?_⟩
    · rw [if_pos h]; rfl
    · rw [if_neg (not_lt.mpr h.1), if_pos h.2]; rfl
    · have h1 : ¬ t < -0.10472 := by intro h'; norm_num at h h'; linarith
      rw [if_neg h1, if_neg (not_lt.mpr h.1), if_pos h.2]; rfl
    · have h1 : ¬ t < -0.10472 := by intro h'; norm_num at h h'; linarith
      have h2 : ¬ t < -0.01745 := by intro h'; norm_num at h h'; linarith
      rw [if_neg h1, if_neg h2, if_neg (not_lt.mpr h.1), if_pos h.2]; rfl
    · have h1 : ¬ t < -0.10472 := by intro h'; norm_num at h h'; linarith
      have h2 : ¬ t < -0.01745 := by intro h'; norm_num at h h'; linarith
      have h3 : ¬ t < 0 := by intro h'; norm_num at h h'; linarith
      rw [if_neg h1, if_neg h2, if_neg h3, if_neg (not_lt.mpr h.1), if_pos h.2]; rfl
    · have h1 : ¬ t < -0.10472 := by intro h'; norm_num at h h'; linarith
      have h2 : ¬ t < -0.01745 := by intro h'; norm_num at h h'; linarith
      have h3 : ¬ t < 0 := by intro h'; norm_num at h h'; linarith
      have h4 : ¬ t < 0.01745 := by intro h'; norm_num at h h'; linarith
      rw [if_neg h1, if_neg h2, if_neg h3, if_neg h4, if_neg (not_lt.mpr h)]; rfl
  · intro w hw
    rw [hw, decode_w_num]
    refine ⟨fun h => ?_, fun h => ?_, fun h => ?_⟩
    · rw [if_pos h]; rfl
    · rw [if_neg (not_lt.mpr h.1), if_pos h.2]; rfl
    · have h1 : ¬ w < -0.87266 := by intro h'; norm_num at h h'; linarith
      rw [if_neg h1, if_neg (not_lt.mpr h)]; rfl

/-- C7: for the all-zero state, as installed by `set_state(0,0,0,0)` at the
start of `main`, `decode_state` returns exactly 85: position bin 1 (offset 1),
velocity bin 1 (offset 3), angle bin 3 (offset 27), angular-velocity bin 1
(offset 54). -/
theorem decode_state_zero (g : vars) :
    decode_state (set_state (ofInt 0) (ofInt 0) (ofInt 0) (ofInt 0)) = 85 ∧
      (85 : Int) = 1 + 3 + 27 + 54 ∧
      decode_x (ofInt 0) = 1 ∧ 3 * decode_v (ofInt 0) = 3 ∧
      9 * decode_t (ofInt 0) = 27 ∧ 54 * decode_w (ofInt 0) = 54 ∧
      (main_init g).s = set_state (ofInt 0) (ofInt 0) (ofInt 0) (ofInt 0) ∧
      (main_init g).box = 85 := by
  have hx : decode_x (ofInt 0) = 1 := by simp [ofInt, decode_x_num]; norm_num
  have hv : decode_v (ofInt 0) = 1 := by simp [ofInt, decode_v_num]; norm_num
  have ht : decode_t (ofInt 0) = 3 := by simp [ofInt, decode_t_num]; norm_num
  have hw : decode_w (ofInt 0) = 1 := by simp [ofInt, decode_w_num]; norm_num
  have h : decode_state (set_state (ofInt 0) (ofInt 0) (ofInt 0) (ofInt 0)) = 85 := by
    rw [decode_state_eq_bins]
    simp only [set_state, hx, hv, ht, hw]
    norm_num
  refine ⟨h, by norm_num, hx, by rw [hv]; rfl, by rw [ht]; rfl, by rw [hw]; rfl, rfl, ?_⟩
  exact h

/-- The position offset is fixed by the listed interval, or by NaN. -/
theorem pos_offset_unique (x : CFloat) (P : Int)
    (h1 : ∀ p, x = num p →
      (p < -0.8 ∧ P = 0) ∨ (-0.8 ≤ p ∧ p < 0.8 ∧ P = 1) ∨ (0.8 ≤ p ∧ P = 2))
    (h2 : x = nan → P = 2) : P = decode_x x := by
  cases x with
  | num p =>
    rw [decode_x_num]
    rcases h1 p rfl with ⟨h, rfl⟩ | ⟨ha, hb, rfl⟩ | ⟨h, rfl⟩
    · rw [if_pos h]
    · rw [if_neg (not_lt.mpr ha), if_pos hb]
    · have h' : ¬ p < -0.8 := by intro h'; norm_num at h h'; linarith
      rw [if_neg h', if_neg (not_lt.mpr h)]
  | nan => rw [h2 rfl, decode_x_nan]

/-- The velocity offset is fixed by the listed interval, or by NaN. -/
theorem speed_offset_unique (x : CFloat) (V : Int)
    (h1 : ∀ v, x = num v →
      (v < -0.5 ∧ V = 0) ∨ (-0.5 ≤ v ∧ v < 0.5 ∧ V = 3) ∨ (0.5 ≤ v ∧ V = 6))
    (h2 : x = nan → V = 6) : V = 3 * decode_v x := by
  cases x with
  | num v =>
    rw [decode_v_num]
    rcases h1 v rfl with ⟨h, rfl⟩ | ⟨ha, hb, rfl⟩ | ⟨h, rfl⟩
    · rw [if_pos h]; rfl
    · rw [if_neg (not_lt.mpr ha), if_pos hb]; rfl
    · have h' : ¬ v < -0.5 := by intro h'; norm_num at h h'; linarith
      rw [if_neg h', if_neg (not_lt.mpr h)]; rfl
  | nan => rw [h2 rfl, decode_v_nan]; rfl

/-- The angle offset is fixed by the listed interval, or by NaN. -/
theorem theta_offset_unique (x : CFloat) (T : Int)
    (h1 : ∀ t, x = num t →
      (t < -0.10472 ∧ T = 0) ∨ (-0.10472 ≤ t ∧ t < -0.01745 ∧ T = 9) ∨
      (-0.01745 ≤ t ∧ t < 0 ∧ T = 18) ∨ (0 ≤ t ∧ t < 0.01745 ∧ T = 27) ∨
      (0.01745 ≤ t ∧ t < 0.10472 ∧ T = 36) ∨ (0.10472 ≤ t ∧ T = 45))
    (h2 : x = nan → T = 45) : T = 9 * decode_t x := by
  cases x with
  | num t =>
    rw [decode_t_num]
    rcases h1 t rfl with ⟨h, rfl⟩ | ⟨ha, hb, rfl⟩ | ⟨ha, hb, rfl⟩ | ⟨ha, hb, rfl⟩ |
      ⟨ha, hb, rfl⟩ | ⟨h, rfl⟩
    · rw [if_pos h]; rfl
    · rw [if_neg (not_lt.mpr ha), if_pos hb]; rfl
    · have n1 : ¬ t < -0.10472 := by intro h'; norm_num at ha h'; linarith
      rw [if_neg n1, if_neg (not_lt.mpr ha), if_pos hb]; rfl
    · have n1 : ¬ t < -0.10472 := by intro h'; norm_num at ha h'; linarith
      have n2 : ¬ t < -0.01745 := by intro h'; norm_num at ha h'; linarith
      rw [if_neg n1, if_neg n2, if_neg (not_lt.mpr ha), if_pos hb]; rfl
    · have n1 : ¬ t < -0.10472 := by intro h'; norm_num at ha h'; linarith
      have n2 : ¬ t < -0.01745 := by intro h'; norm_num at ha h'; linarith
      have n3 : ¬ t < 0 := by intro h'; norm_num at ha h'; linarith
      rw [if_neg n1, if_neg n2, if_neg n3, if_neg (not_lt.mpr ha), if_pos hb]; rfl
    · have n1 : ¬ t < -0.10472 := by intro h'; norm_num at h h'; linarith
      have n2 : ¬ t < -0.01745 := by intro h'; norm_num at h h'; linarith
      have n3 : ¬ t < 0 := by intro h'; norm_num at h h'; linarith
      have n4 : ¬ t < 0.01745 := by intro h'; norm_num at h h'; linarith
      rw [if_neg n1, if_neg n2, if_neg n3, if_neg n4, if_neg (not_lt.mpr h)]; rfl
  | nan => rw [h2 rfl, decode_t_nan]; rfl

/-- The angular-velocity offset is fixed by the listed interval, or by NaN. -/
theorem omega_offset_unique (x : CFloat) (W : Int)
    (h1 : ∀ w, x = num w →
      (w < -0.87266 ∧ W = 0) ∨ (-0.87266 ≤ w ∧ w < 0.87266 ∧ W = 54) ∨
      (0.87266 ≤ w ∧ W = 108))
    (h2 : x = nan → W = 108) : W = 54 * decode_w x := by
  cases x with
  | num w =>
    rw [decode_w_num]
    rcases h1 w rfl with ⟨h, rfl⟩ | ⟨ha, hb, rfl⟩ | ⟨h, rfl⟩
    · rw [if_pos h]; rfl
    · rw [if_neg (not_lt.mpr ha), if_pos hb]; rfl
    · have h' : ¬ w < -0.87266 := by intro h'; norm_num at h h'; linarith
      rw [if_neg h', if_neg (not_lt.mpr h)]; rfl
  | nan => rw [h2 rfl, decode_w_nan]; rfl

/-- C5: for every state, NaN fields included, the box returned by
`decode_state` satisfies `0 ≤ box ≤ 161` (so `box < NBOXES = 162`), and it is
in exactly one way the sum of one listed offset per axis: a numeric field lies
in one listed interval and contributes that interval's offset, and a field on
which every comparison is false contributes the offset of the last bin. -/
theorem decode_state_range (s : state) :
    0 ≤ decode_state s ∧ decode_state s ≤ 161 ∧ decode_state s < NBOXES ∧
    ∃! q : Int × Int × Int × Int, decode_state s = q.1 + q.2.1 + q.2.2.1 + q.2.2.2 ∧
      ((∀ p, s.pos = num p →
          (p < -0.8 ∧ q.1 = 0) ∨ (-0.8 ≤ p ∧ p < 0.8 ∧ q.1 = 1) ∨ (0.8 ≤ p ∧ q.1 = 2)) ∧
        (s.pos = nan → q.1 = 2)) ∧
      ((∀ v, s.speed = num v →
          (v < -0.5 ∧ q.2.1 = 0) ∨ (-0.5 ≤ v ∧ v < 0.5 ∧ q.2.1 = 3) ∨
          (0.5 ≤ v ∧ q.2.1 = 6)) ∧
        (s.speed = nan → q.2.1 = 6)) ∧
      ((∀ t, s.theta = num t →
          (t < -0.10472 ∧ q.2.2.1 = 0) ∨ (-0.10472 ≤ t ∧ t < -0.01745 ∧ q.2.2.1 = 9) ∨
          (-0.01745 ≤ t ∧ t < 0 ∧ q.2.2.1 = 18) ∨ (0 ≤ t ∧ t < 0.01745 ∧ q.2.2.1 = 27) ∨
          (0.01745 ≤ t ∧ t < 0.10472 ∧ q.2.2.1 = 36) ∨ (0.10472 ≤ t ∧ q.2.2.1 = 45)) ∧
        (s.theta = nan → q.2.2.1 = 45)) ∧
      ((∀ w, s.omega = num w →
          (w < -0.87266 ∧ q.2.2.2 = 0) ∨ (-0.87266 ≤ w ∧ w < 0.87266 ∧ q.2.2.2 = 54) ∨
          (0.87266 ≤ w ∧ q.2.2.2 = 108)) ∧
        (s.omega = nan → q.2.2.2 = 108)) := by
  have hx := decode_x_range s.pos
  have hv := decode_v_range s.speed
  have ht := decode_t_range s.theta
  have hw := decode_w_range s.omega
  have hb := decode_state_eq_bins s
  refine ⟨by omega, by omega, by unfold NBOXES; omega,
    (decode_x s.pos, 3 * decode_v s.speed, 9 * decode_t s.theta, 54 * decode_w s.omega),
    ⟨hb, ⟨?_, ?_⟩, ⟨?_, ?_⟩, ⟨?_, ?_⟩, ⟨?_, ?_⟩⟩, ?_⟩
  · intro p hp
    show (p < -0.8 ∧ decode_x s.pos = 0) ∨ (-0.8 ≤ p ∧ p < 0.8 ∧ decode_x s.pos = 1) ∨
      (0.8 ≤ p ∧ decode_x s.pos = 2)
    rw [hp, decode_x_num]
    split_ifs with h1 h2
    · exact Or.inl ⟨h1, rfl⟩
    · exact Or.inr (Or.inl ⟨not_lt.mp h1, h2, rfl⟩)
    · exact Or.inr (Or.inr ⟨not_lt.mp h2, rfl⟩)
  · intro h
    show decode_x s.pos = 2
    rw [h, decode_x_nan]
  · intro v hv'
    show (v < -0.5 ∧ 3 * decode_v s.speed = 0) ∨
      (-0.5 ≤ v ∧ v < 0.5 ∧ 3 * decode_v s.speed = 3) ∨ (0.5 ≤ v ∧ 3 * decode_v s.speed = 6)
    rw [hv', decode_v_num]
    split_ifs with h1 h2
    · exact Or.inl ⟨h1, rfl⟩
    · exact Or.inr (Or.inl ⟨not_lt.mp h1, h2, rfl⟩)
    · exact Or.inr (Or.inr ⟨not_lt.mp h2, rfl⟩)
  · intro h
    show 3 * decode_v s.speed = 6
    rw [h, decode_v_nan]; rfl
  · intro t ht'
    show (t < -0.10472 ∧ 9 * decode_t s.theta = 0) ∨
      (-0.10472 ≤ t ∧ t < -0.01745 ∧ 9 * decode_t s.theta = 9) ∨
      (-0.01745 ≤ t ∧ t < 0 ∧ 9 * decode_t s.theta = 18) ∨
      (0 ≤ t ∧ t < 0.01745 ∧ 9 * decode_t s.theta = 27) ∨
      (0.01745 ≤ t ∧ t < 0.10472 ∧ 9 * decode_t s.theta = 36) ∨
      (0.10472 ≤ t ∧ 9 * decode_t s.theta = 45)
    rw [ht', decode_t_num]
    split_ifs with h1 h2 h3 h4 h5
    · exact Or.inl ⟨h1, rfl⟩
    · exact Or.inr (Or.inl ⟨not_lt.mp h1, h2, rfl⟩)
    · exact Or.inr (Or.inr (Or.inl ⟨not_lt.mp h2, h3, rfl⟩))
    · exact Or.inr (Or.inr (Or.inr (Or.inl ⟨not_lt.mp h3, h4, rfl⟩)))
    · exact Or.inr (Or.inr (Or.inr (Or.inr (Or.inl ⟨not_lt.mp h4, h5, rfl⟩))))
    · exact Or.inr (Or.inr (Or.inr (Or.inr (Or.inr ⟨not_lt.mp h5, rfl⟩))))
  · intro h
    show 9 * decode_t s.theta = 45
    rw [h, decode_t_nan]; rfl
  · intro w hw'
    show (w < -0.87266 ∧ 54 * decode_w s.omega = 0) ∨
      (-0.87266 ≤ w ∧ w < 0.87266 ∧ 54 * decode_w s.omega = 54) ∨
      (0.87266 ≤ w ∧ 54 * decode_w s.omega = 108)
    rw [hw', decode_w_num]
    split_ifs with h1 h2
    · exact Or.inl ⟨h1, rfl⟩
    · exact Or.inr (Or.inl ⟨not_lt.mp h1, h2, rfl⟩)
    · exact Or.inr (Or.inr ⟨not_lt.mp h2, rfl⟩)
  · intro h
    show 54 * decode_w s.omega = 108
    rw [h, decode_w_nan]; rfl
  · rintro ⟨P, V, T, W⟩ ⟨-, ⟨hp1, hp2⟩, ⟨hv1, hv2⟩, ⟨ht1, ht2⟩, ⟨hw1, hw2⟩⟩
    rw [pos_offset_unique s.pos P hp1 hp2, speed_offset_unique s.speed V hv1 hv2,
      theta_offset_unique s.theta T ht1 ht2, omega_offset_unique s.omega W hw1 hw2]

/-- Every position bin number is attained. -/
theorem decode_x_onto (i : Int) (h0 : 0 ≤ i) (h2 : i ≤ 2) : ∃ x, decode_x x = i := by
  have h : i = 0 ∨ i = 1 ∨ i = 2 := by omega
  rcases h with h | h | h
  · exact ⟨num (-1), by rw [decode_x_num, h]; norm_num⟩
  · exact ⟨num 0, by rw [decode_x_num, h]; norm_num⟩
  · exact ⟨num 1, by rw [decode_x_num, h]; norm_num⟩

/-- Every velocity bin number is attained. -/
theorem decode_v_onto (i : Int) (h0 : 0 ≤ i) (h2 : i ≤ 2) : ∃ v, decode_v v = i := by
  have h : i = 0 ∨ i = 1 ∨ i = 2 := by omega
  rcases h with h | h | h
  · exact ⟨num (-1), by rw [decode_v_num, h]; norm_num⟩
  · exact ⟨num 0, by rw [decode_v_num, h]; norm_num⟩
  · exact ⟨num 1, by rw [decode_v_num, h]; norm_num⟩

/-- Every angle bin number is attained. -/
theorem decode_t_onto (i : Int) (h0 : 0 ≤ i) (h5 : i ≤ 5) : ∃ t, decode_t t = i := by
  have h : i = 0 ∨ i = 1 ∨ i = 2 ∨ i = 3 ∨ i = 4 ∨ i = 5 := by omega
  rcases h with h | h | h | h | h | h
  · exact ⟨num (-1), by rw [decode_t_num, h]; norm_num⟩
  · exact ⟨num (-0.05), by rw [decode_t_num, h]; norm_num⟩
  · exact ⟨num (-0.01), by rw [decode_t_num, h]; norm_num⟩
  · exact ⟨num 0.01, by rw [decode_t_num, h]; norm_num⟩
  · exact ⟨num 0.05, by rw [decode_t_num, h]; norm_num⟩
  · exact ⟨num 1, by rw [decode_t_num, h]; norm_num⟩

/-- Every angular-velocity bin number is attained. -/
theorem decode_w_onto (i : Int) (h0 : 0 ≤ i) (h2 : i ≤ 2) : ∃ w, decode_w w = i := by
  have h : i = 0 ∨ i = 1 ∨ i = 2 := by omega
  rcases h with h | h | h
  · exact ⟨num (-1), by rw [decode_w_num, h]; norm_num⟩
  · exact ⟨num 0, by rw [decode_w_num, h]; norm_num⟩
  · exact ⟨num 1, by rw [decode_w_num, h]; norm_num⟩

/-- C6: the box index identifies the cell of the 3 x 3 x 6 x 3 partition: two
states get the same `decode_state` value if and only if they are in the same
position bin, the same velocity bin, the same angle bin and the same
angular-velocity bin (bins numbered by the per-axis decoders), and every
integer of 0..161 is the `decode_state` value of some state. -/
theorem decode_state_identifies_cell :
    (∀ a b : state, decode_state a = decode_state b ↔
      (decode_x a.pos = decode_x b.pos ∧ decode_v a.speed = decode_v b.speed ∧
        decode_t a.theta = decode_t b.theta ∧ decode_w a.omega = decode_w b.omega)) ∧
    (∀ n : Fin 162, ∃ s : state, decode_state s = (n.val : Int)) := by
  refine ⟨fun a b => ?_, fun n => ?_⟩
  · rw [decode_state_eq_bins, decode_state_eq_bins]
    have hxa := decode_x_range a.pos
    have hva := decode_v_range a.speed
    have hta := decode_t_range a.theta
    have hwa := decode_w_range a.omega
    have hxb := decode_x_range b.pos
    have hvb := decode_v_range b.speed
    have htb := decode_t_range b.theta
    have hwb := decode_w_range b.omega
    constructor
    · intro h
      refine ⟨by omega, by omega, by omega, by omega⟩
    · rintro ⟨h1, h2, h3, h4⟩
      rw [h1, h2, h3, h4]
  · have hn := n.isLt
    obtain ⟨x, hx⟩ := decode_x_onto ((n.val : Int) % 3) (by omega) (by omega)
    obtain ⟨v, hv⟩ := decode_v_onto ((n.val : Int) / 3 % 3) (by omega) (by omega)
    obtain ⟨t, ht⟩ := decode_t_onto ((n.val : Int) / 9 % 6) (by omega) (by omega)
    obtain ⟨w, hw⟩ := decode_w_onto ((n.val : Int) / 54) (by omega) (by omega)
    refine ⟨⟨x, v, t, w⟩, ?_⟩
    rw [decode_state_eq_bins]
    simp only [hx, hv, ht, hw]
    omega

/-! ## The boundary check `out_limits` -/

/-- `out_limits` on a state with numeric position and angle. -/
theorem out_limits_num (p t : ℚ) (v w : CFloat) :
    out_limits ⟨num p, v, num t, w⟩ = if p > 3.0 ∨ p < -3.0 ∨ |t| > 0.2 then 1 else 0 := by
  simp only [out_limits, RIGHT_LIMIT, LEFT_LIMIT, THETA_LIMIT, gt_num_num, lt_num_num,
    fabs_num, Bool.or_eq_true, decide_eq_true_eq, or_assoc]

/-- The exponent of `0.2` as a binary floating-point number. -/
theorem log_two_theta_limit : Int.log 2 |(0.2 : ℚ)| = -3 := by
  have hpos : (0 : ℚ) < |(0.2 : ℚ)| := by norm_num
  apply le_antisymm
  · have h : Int.log 2 |(0.2 : ℚ)| < -2 := by
      rw [← Int.lt_zpow_iff_log_lt (by norm_num) hpos]
      norm_num [abs_of_pos]
    omega
  · rw [← Int.zpow_le_iff_le_log (by norm_num) hpos]
    norm_num [abs_of_pos]

/-- The `float` nearest to `0.2` is `13421773 / 2^26`, about `0.200000003`. -/
theorem to_float_theta_limit : to_float 0.2 = 13421773 / 67108864 := by
  have hf : ⌊(67108864 / 5 : ℚ)⌋ = 13421772 := by
    rw [Int.floor_eq_iff]; constructor <;> norm_num
  have hr : round_half_even (67108864 / 5) = 13421773 := by
    unfold round_half_even
    rw [hf]
    norm_num
  unfold to_float
  rw [if_neg (by norm_num), log_two_theta_limit]
  have e : max (-3 : Int) (-126) - 23 = -26 := by norm_num
  simp only [e]
  have q : (0.2 : ℚ) / 2 ^ (-26 : Int) = 67108864 / 5 := by norm_num [zpow_neg]
  rw [q, hr]
  norm_num [zpow_neg]

/-- The `float` nearest to `-0.2` is `-13421773 / 2^26`. -/
theorem to_float_neg_theta_limit : to_float (-0.2) = -(13421773 / 67108864) := by
  have hf : ⌊(-67108864 / 5 : ℚ)⌋ = -13421773 := by
    rw [Int.floor_eq_iff]; constructor <;> norm_num
  have hr : round_half_even (-67108864 / 5) = -13421773 := by
    unfold round_half_even
    rw [hf]
    norm_num
  have hl : Int.log 2 |(-0.2 : ℚ)| = -3 := by
    rw [abs_neg]; exact log_two_theta_limit
  unfold to_float
  rw [if_neg (by norm_num), hl]
  have e : max (-3 : Int) (-126) - 23 = -26 := by norm_num
  simp only [e]
  have q : (-0.2 : ℚ) / 2 ^ (-26 : Int) = -67108864 / 5 := by norm_num [zpow_neg]
  rw [q, hr]
  norm_num [zpow_neg]

/-- The `float` nearest to `3.0001` is `12583331 / 2^22`, about `3.0000999`. -/
theorem to_float_past_right_limit : to_float 3.0001 = 12583331 / 4194304 := by
  have hpos : (0 : ℚ) < |(3.0001 : ℚ)| := by norm_num
  have hl : Int.log 2 |(3.0001 : ℚ)| = 1 := by
    apply le_antisymm
    · have h : Int.log 2 |(3.0001 : ℚ)| < 2 := by
        rw [← Int.lt_zpow_iff_log_lt (by norm_num) hpos]
        norm_num [abs_of_pos]
      omega
    · rw [← Int.zpow_le_iff_le_log (by norm_num) hpos]
      norm_num [abs_of_pos]
  have hf : ⌊(3.0001 * 4194304 : ℚ)⌋ = 12583331 := by
    rw [Int.floor_eq_iff]; constructor <;> norm_num
  have hr : round_half_even (3.0001 * 4194304) = 12583331 := by
    unfold round_half_even
    rw [hf]
    norm_num
  unfold to_float
  rw [if_neg (by norm_num), hl]
  have e : max (1 : Int) (-126) - 23 = -22 := by norm_num
  simp only [e]
  have q : (3.0001 : ℚ) / 2 ^ (-22 : Int) = 3.0001 * 4194304 := by norm_num [zpow_neg]
  rw [q, hr]
  norm_num [zpow_neg]

/-- C2 as stated fails at the boundary `theta = 0.2`: `0.2` lies strictly
between two adjacent `float` values, so `theta` never holds it; the state
stored by `set_state(0, 0, 0.2, 0)` has `theta = 13421773 / 2^26` and
`out_limits` returns 1 there, and likewise for `-0.2`. -/
theorem out_limits_at_stored_theta_limit :
    to_float 0.2 = 13421773 / 67108864 ∧
    (13421772 / 67108864 : ℚ) < 0.2 ∧ (0.2 : ℚ) < 13421773 / 67108864 ∧
    out_limits (set_state (ofInt 0) (ofInt 0) (num (to_float 0.2)) (ofInt 0)) = 1 ∧
    out_limits (set_state (ofInt 0) (ofInt 0) (num (to_float (-0.2))) (ofInt 0)) = 1 := by
  refine ⟨to_float_theta_limit, by norm_num, by norm_num, ?_, ?_⟩
  · rw [to_float_theta_limit]
    simp only [set_state, ofInt, Int.cast_zero, out_limits_num]
    norm_num [abs_of_pos]
  · rw [to_float_neg_theta_limit]
    simp only [set_state, ofInt, Int.cast_zero, out_limits_num]
    norm_num [abs_of_pos]

/-- C2 (amended): `out_limits` returns 1 if and only if `pos > 3.0` or
`pos < -3.0` or `|theta| > 0.2`, and 0 otherwise (a comparison with a NaN
field is false); it returns 0 at the boundary values `pos = 3.0` and
`pos = -3.0` with `theta` in range, and 1 at `pos = 3.0001` (also at the
`float` stored for `3.0001`).  A `float` cannot hold `0.2`: at the `float`
nearest to `0.2` (the value stored when `0.2` is passed) and at its negation
it returns 1, and at the largest `float` below `0.2` and its negation it
returns 0, with `pos` in range. -/
theorem out_limits_iff :
    (∀ s : state, out_limits s = 1 ↔
      ((∃ p, s.pos = num p ∧ (p > 3.0 ∨ p < -3.0)) ∨ (∃ t, s.theta = num t ∧ |t| > 0.2))) ∧
    (∀ s : state, out_limits s = 0 ↔
      ¬ ((∃ p, s.pos = num p ∧ (p > 3.0 ∨ p < -3.0)) ∨ (∃ t, s.theta = num t ∧ |t| > 0.2))) ∧
    (∀ (v w : CFloat) (t : ℚ), |t| ≤ 0.2 →
      out_limits ⟨num 3.0, v, num t, w⟩ = 0 ∧ out_limits ⟨num (-3.0), v, num t, w⟩ = 0) ∧
    (∀ (v w : CFloat) (p : ℚ), -3.0 ≤ p → p ≤ 3.0 →
      out_limits ⟨num p, v, num (to_float 0.2), w⟩ = 1 ∧
      out_limits ⟨num p, v, num (to_float (-0.2)), w⟩ = 1 ∧
      out_limits ⟨num p, v, num (13421772 / 67108864), w⟩ = 0 ∧
      out_limits ⟨num p, v, num (-(13421772 / 67108864)), w⟩ = 0) ∧
    (∀ v t w : CFloat, out_limits ⟨num 3.0001, v, t, w⟩ = 1 ∧
      out_limits ⟨num (to_float 3.0001), v, t, w⟩ = 1) := by
  have key : ∀ s : state, out_limits s = 1 ↔
      ((∃ p, s.pos = num p ∧ (p > 3.0 ∨ p < -3.0)) ∨
        (∃ t, s.theta = num t ∧ |t| > 0.2)) := by
    intro s
    obtain ⟨x, v, t, w⟩ := s
    cases x <;> cases t <;>
      simp only [out_limits, RIGHT_LIMIT, LEFT_LIMIT, THETA_LIMIT, gt_num_num, lt_num_num,
        gt_nan_left, lt_nan_left, fabs_num, fabs_nan, Bool.or_eq_true, decide_eq_true_eq,
        Bool.false_or, Bool.or_false, CFloat.num.injEq, exists_eq_left', reduceCtorEq,
        false_and, exists_false, or_false, false_or, Bool.false_eq_true] <;>
      split_ifs <;> simp_all
  have key0 : ∀ s : state, out_limits s = 0 ↔ ¬ out_limits s = 1 := by
    intro s
    unfold out_limits
    split_ifs <;> simp
  refine ⟨key, fun s => ?_, fun v w t ht => ⟨?_, ?_⟩, fun v w p h1 h2 => ⟨?_, ?_, ?_, ?_⟩,
    fun v t w => ⟨?_, ?_⟩⟩
  · rw [key0, key]
  · rw [key0, key]
    simp only [CFloat.num.injEq, exists_eq_left']
    norm_num at ht ⊢
    exact ht
  · rw [key0, key]
    simp only [CFloat.num.injEq, exists_eq_left']
    norm_num at ht ⊢
    exact ht
  · rw [key, to_float_theta_limit]
    right
    exact ⟨_, rfl, by norm_num [abs_of_pos]⟩
  · rw [key, to_float_neg_theta_limit]
    right
    exact ⟨_, rfl, by norm_num [abs_of_pos]⟩
  · rw [key0, key]
    simp only [CFloat.num.injEq, exists_eq_left']
    norm_num [abs_of_pos] at h1 h2 ⊢
    exact ⟨h2, h1⟩
  · rw [key0, key]
    simp only [CFloat.num.injEq, exists_eq_left']
    norm_num [abs_of_pos] at h1 h2 ⊢
    exact ⟨h2, h1⟩
  · rw [key]
    left
    exact ⟨3.0001, rfl, Or.inl (by norm_num)⟩
  · rw [key, to_float_past_right_limit]
    left
    exact ⟨_, rfl, Or.inl (by norm_num)⟩

/-! ## The physics step `update_state` -/

/-- No rational number has square 11. -/
theorem rat_mul_self_ne_eleven (c : ℚ) : c * c ≠ 11 := by
  intro h
  have hp : Nat.Prime 11 := by norm_num
  have hirr : Irrational (Real.sqrt ((11 : ℕ) : ℝ)) := hp.irrational_sqrt
  apply hirr
  refine ⟨|c|, ?_⟩
  have h2 : ((11 : ℕ) : ℝ) = (c : ℝ) ^ 2 := by
    have : ((c * c : ℚ) : ℝ) = ((11 : ℚ) : ℝ) := by rw [h]
    push_cast at this
    push_cast
    rw [pow_two]
    exact this.symm
  rw [h2, Real.sqrt_sq_eq_abs]
  push_cast
  rfl

/-- The divisor in the assignment to `t_acc` is never zero, whatever value the
cosine takes. -/
theorem t_acc_divisor_ne_zero (c : ℚ) :
    ((Int.tdiv 4 3 : Int) : ℚ) * (1.0 + 0.1) * 0.5 - 0.1 * 0.5 * c * c ≠ 0 := by
  intro h
  apply rat_mul_self_ne_eleven c
  have h43 : ((Int.tdiv 4 3 : Int) : ℚ) = 1 := by
    have : Int.tdiv 4 3 = 1 := by decide
    rw [this]; norm_num
  rw [h43] at h
  norm_num at h
  linarith

/-- The divisor in the assignment to `x_acc` is not zero. -/
theorem x_acc_divisor_ne_zero : ((0.1 : ℚ) + 1.0) ≠ 0 := by norm_num

/-- Closed form of `t_acc` on numeric arguments: the coefficient of
`(CART_MASS+POLE_MASS)*POLE_LEN` in the divisor is the integer quotient
`4/3 = 1`. -/
theorem t_acc_num (m : Libm) (x v : CFloat) (t w f : ℚ) :
    t_acc m ⟨x, v, num t, num w⟩ (num f) =
      num (((1.0 + 0.1) * 9.8 * m.sin t - (f + 0.1 * 0.5 * w * w * m.sin t) * m.cos t) /
        (1 * (1.0 + 0.1) * 0.5 - 0.1 * 0.5 * m.cos t * m.cos t)) := by
  have h43 : Int.tdiv 4 3 = 1 := by decide
  simp only [t_acc, CART_MASS, POLE_MASS, POLE_LEN, GRAVITY, ofInt, h43, map_num,
    add_num_num, mul_num_num, sub_num_num, div_num_num, Int.cast_one]

/-- Closed form of `x_acc` on numeric arguments, given the value of `t_acc`. -/
theorem x_acc_num (m : Libm) (x v : CFloat) (t w f a : ℚ)
    (ha : t_acc m ⟨x, v, num t, num w⟩ (num f) = num a) :
    x_acc m ⟨x, v, num t, num w⟩ (num f) =
      num ((f + 0.1 * 0.5 * (w * w * m.sin t - a * m.cos t)) / (0.1 + 1.0)) := by
  simp only [x_acc, ha, CART_MASS, POLE_MASS, POLE_LEN, map_num,
    add_num_num, mul_num_num, sub_num_num, div_num_num]

/-- C3 (the code departs from the claimed formula): at the zero state with
force `FORCE * 1 = 10`, for any library with `cos 0 = 1` and `sin 0 = 0`, the
angular acceleration computed by `update_state` is `-20 = -F / (1*(M_cart+M_pole)*L - M_pole*L)`,
not `-F / ((4/3)*(M_cart+M_pole)*L - M_pole*L) = -600/41`: the source's `4/3`
is an integer division. -/
theorem t_acc_zero_state_integer_quotient (m : Libm) (hc : m.cos 0 = 1) (hs : m.sin 0 = 0) :
    t_acc m (set_state (ofInt 0) (ofInt 0) (ofInt 0) (ofInt 0)) (ofInt (FORCE * 1)) = num (-20) ∧
      t_acc m (set_state (ofInt 0) (ofInt 0) (ofInt 0) (ofInt 0)) (ofInt (FORCE * 1)) ≠
        num (-10 / ((4 / 3) * (1.0 + 0.1) * 0.5 - 0.1 * 0.5)) ∧
      (-10 / ((4 / 3) * (1.0 + 0.1) * 0.5 - 0.1 * 0.5) : ℚ) = -600 / 41 := by
  have h : t_acc m (set_state (ofInt 0) (ofInt 0) (ofInt 0) (ofInt 0)) (ofInt (FORCE * 1))
      = num (-20) := by
    have e1 : set_state (ofInt 0) (ofInt 0) (ofInt 0) (ofInt 0)
        = ⟨ofInt 0, ofInt 0, num 0, num 0⟩ := by simp [set_state, ofInt]
    have e2 : ofInt (FORCE * 1) = num 10 := by simp [ofInt, FORCE]
    rw [e1, e2, t_acc_num, hc, hs]
    norm_num
  refine ⟨h, ?_, by norm_num⟩
  rw [h]
  intro h'
  have := CFloat.num.inj h'
  norm_num at this

/-- Instance of the C3 evaluation with the polynomial stand-in library. -/
theorem t_acc_zero_state_integer_quotient_witness :
    taylor_libm.cos 0 = 1 ∧ taylor_libm.sin 0 = 0 ∧
      t_acc taylor_libm (set_state (ofInt 0) (ofInt 0) (ofInt 0) (ofInt 0)) (ofInt (FORCE * 1))
        = num (-20) :=
  ⟨by simp [taylor_libm], by simp [taylor_libm],
    (t_acc_zero_state_integer_quotient taylor_libm (by simp [taylor_libm])
      (by simp [taylor_libm])).1⟩

/-- C4: `update_state` performs one forward-Euler step with `dt = 0.01` whose
right-hand sides use only pre-step values: `pos' = pos + speed*dt`,
`theta' = theta + omega*dt`, `speed' = speed + x_acc*dt`,
`omega' = omega + t_acc*dt`, with `t_acc` the angular acceleration it computed
and `x_acc = (F + M_pole*L*(omega^2*sin theta - t_acc*cos theta)) / (M_pole + M_cart)`,
`M_pole = 0.1`, `M_cart = 1.0`, `L = 0.5`; hence `pos'` and `theta'` do not
depend on `F`.  The returned flag is `out_limits` of the new state. -/
theorem update_state_euler (m : Libm) (s : state) (F : CFloat) :
    (update_state m s F).1.pos = s.pos + s.speed * num 0.01 ∧
    (update_state m s F).1.theta = s.theta + s.omega * num 0.01 ∧
    (update_state m s F).1.speed = s.speed + x_acc m s F * num 0.01 ∧
    (update_state m s F).1.omega = s.omega + t_acc m s F * num 0.01 ∧
    x_acc m s F =
      (F + num 0.1 * num 0.5 *
          (s.omega * s.omega * s.theta.map m.sin - t_acc m s F * s.theta.map m.cos)) /
        (num 0.1 + num 1.0) ∧
    (update_state m s F).2 = out_limits (update_state m s F).1 ∧
    (∀ F' : CFloat, (update_state m s F').1.pos = (update_state m s F).1.pos ∧
      (update_state m s F').1.theta = (update_state m s F).1.theta) ∧
    (∀ p v t w f a : ℚ, s = ⟨num p, num v, num t, num w⟩ → F = num f →
      t_acc m s F = num a →
      (update_state m s F).1 =
        ⟨num (p + v * 0.01),
         num (v + (f + 0.1 * 0.5 * (w ^ 2 * m.sin t - a * m.cos t)) / (0.1 + 1.0) * 0.01),
         num (t + w * 0.01),
         num (w + a * 0.01)⟩) := by
  refine ⟨rfl, rfl, rfl, rfl, rfl, rfl, fun F' => ⟨rfl, rfl⟩, ?_⟩
  intro p v t w f a hs hF ha
  subst hs hF
  have hx := x_acc_num m (num p) (num v) t w f a ha
  simp only [update_state, ha, hx, add_num_num, mul_num_num, pow_two]

/-! ## The learning loop -/

@[simp] theorem call_s (v : vars) (c : Call) : (v.call c).s = v.s := rfl

@[simp] theorem call_box (v : vars) (c : Call) : (v.call c).box = v.box := rfl

@[simp] theorem call_duration (v : vars) (c : Call) : (v.call c).duration = v.duration := rfl

@[simp] theorem call_maxd (v : vars) (c : Call) : (v.call c).maxd = v.maxd := rfl

@[simp] theorem call_failures (v : vars) (c : Call) : (v.call c).failures = v.failures := rfl

@[simp] theorem call_total_steps (v : vars) (c : Call) :
    (v.call c).total_steps = v.total_steps := rfl

@[simp] theorem call_log (v : vars) (c : Call) : (v.call c).log = v.log ++ [c] := rfl

/-- The failure flag of a pass is the result of `update_state` on the state at
the top of the pass, with force `FORCE * y`. -/
theorem act_and_step_fail (m : Libm) (e : Ext) (v : vars) :
    (act_and_step m e v).fail =
      (update_state m v.s (ofInt (FORCE * e.ase_output v.box))).2 := by
  unfold act_and_step
  by_cases hv : e.view ≠ 0 <;> simp [hv, vars.call]

theorem act_and_step_s (m : Libm) (e : Ext) (v : vars) :
    (act_and_step m e v).s =
      (update_state m v.s (ofInt (FORCE * e.ase_output v.box))).1 := by
  unfold act_and_step
  by_cases hv : e.view ≠ 0 <;> simp [hv, vars.call]

theorem act_and_step_duration (m : Libm) (e : Ext) (v : vars) :
    (act_and_step m e v).duration = v.duration + 1 := by
  unfold act_and_step
  by_cases hv : e.view ≠ 0 <;> simp [hv, vars.call]

theorem act_and_step_maxd (m : Libm) (e : Ext) (v : vars) :
    (act_and_step m e v).maxd = v.maxd := by
  unfold act_and_step
  by_cases hv : e.view ≠ 0 <;> simp [hv, vars.call]

theorem act_and_step_log (m : Libm) (e : Ext) (v : vars) :
    (act_and_step m e v).log =
      v.log ++ (if e.view ≠ 0 then [Call.display_cart v.s] else []) ++
        [Call.ase_output v.box,
         Call.update_eligibilities_traces v.box (e.ase_output v.box),
         Call.update_state (ofInt (FORCE * e.ase_output v.box)),
         Call.decode_state] := by
  unfold act_and_step
  by_cases hv : e.view ≠ 0 <;> simp [hv, vars.call]

theorem act_and_step_box (m : Libm) (e : Ext) (v : vars) :
    (act_and_step m e v).box =
      decode_state (update_state m v.s (ofInt (FORCE * e.ase_output v.box))).1 := by
  unfold act_and_step
  by_cases hv : e.view ≠ 0 <;> simp [hv, vars.call]

theorem act_and_step_failures (m : Libm) (e : Ext) (v : vars) :
    (act_and_step m e v).failures = v.failures := by
  unfold act_and_step
  by_cases hv : e.view ≠ 0 <;> simp [hv, vars.call]

/-- The box of the zero state, in the form used by the loop. -/
theorem decode_state_reset :
    decode_state (set_state (ofInt 0) (ofInt 0) (ofInt 0) (ofInt 0)) = 85 := by
  rw [decode_state_eq_bins]
  simp only [set_state, ofInt, Int.cast_zero, decode_x_num, decode_v_num, decode_t_num,
    decode_w_num]
  norm_num

/-- The fields of `on_failure w`. -/
theorem on_failure_fields (w : vars) :
    (on_failure w).s = set_state (ofInt 0) (ofInt 0) (ofInt 0) (ofInt 0) ∧
    (on_failure w).total_steps = w.total_steps ∧
    (on_failure w).duration = 0 ∧
    (on_failure w).maxd = max w.maxd w.duration ∧
    (on_failure w).failures = w.failures + 1 ∧
    (on_failure w).box = decode_state (set_state (ofInt 0) (ofInt 0) (ofInt 0) (ofInt 0)) ∧
    (on_failure w).p = ofInt 0 ∧
    (on_failure w).r = -1 ∧
    (on_failure w).fail = w.fail ∧
    (on_failure w).log = w.log ++
      [Call.update_info (w.failures + 1) (max w.maxd w.duration),
       Call.set_state (ofInt 0) (ofInt 0) (ofInt 0) (ofInt 0),
       Call.decode_state] := by
  unfold on_failure
  by_cases hgt : w.duration > w.maxd
  · have hmax : max w.maxd w.duration = w.duration := max_eq_right (le_of_lt hgt)
    simp [hgt, hmax, vars.call]
  · have hmax : max w.maxd w.duration = w.maxd := max_eq_left (not_lt.mp hgt)
    simp [hgt, hmax, vars.call]

/-- The fields of `on_success e w`. -/
theorem on_success_fields (e : Ext) (w : vars) :
    (on_success e w).s = w.s ∧
    (on_success e w).total_steps = w.total_steps ∧
    (on_success e w).duration = w.duration ∧
    (on_success e w).maxd = w.maxd ∧
    (on_success e w).failures = w.failures ∧
    (on_success e w).box = w.box ∧
    (on_success e w).p = e.ace_output w.box ∧
    (on_success e w).r = 0 ∧
    (on_success e w).fail = w.fail ∧
    (on_success e w).log = w.log ++ [Call.ace_output w.box] := by
  simp [on_success, vars.call]

/-- The fields of `learn e w`. -/
theorem learn_fields (e : Ext) (w : vars) :
    (learn e w).s = w.s ∧
    (learn e w).total_steps = w.total_steps ∧
    (learn e w).duration = w.duration ∧
    (learn e w).maxd = w.maxd ∧
    (learn e w).failures = w.failures ∧
    (learn e w).box = w.box ∧
    (learn e w).p = w.p ∧
    (learn e w).r = w.r ∧
    (learn e w).sr = e.secondary_reinforce w.r ∧
    (learn e w).fail = w.fail ∧
    (learn e w).log = w.log ++
      [Call.secondary_reinforce w.r, Call.update_weights (e.secondary_reinforce w.r),
       if w.fail ≠ 0 then Call.clear_eligibilities_traces
       else Call.decay_eligibilities_traces] := by
  unfold learn
  by_cases hf : w.fail ≠ 0
  · simp [hf, vars.call]
  · simp [hf, vars.call]

/-- The loop body when the physics step reports failure. -/
theorem loop_body_of_fail (m : Libm) (e : Ext) (v : vars)
    (h : (update_state m v.s (ofInt (FORCE * e.ase_output v.box))).2 ≠ 0) :
    loop_body m e v = learn e (on_failure (act_and_step m e v)) := by
  unfold loop_body
  have h' : (act_and_step m e v).fail ≠ 0 := by rw [act_and_step_fail]; exact h
  simp only [h', if_true, ne_eq, not_false_eq_true]

/-- The loop body when the physics step does not report failure. -/
theorem loop_body_of_ok (m : Libm) (e : Ext) (v : vars)
    (h : (update_state m v.s (ofInt (FORCE * e.ase_output v.box))).2 = 0) :
    loop_body m e v = learn e (on_success e (act_and_step m e v)) := by
  unfold loop_body
  have h' : (act_and_step m e v).fail = 0 := by rw [act_and_step_fail]; exact h
  simp only [h', ne_eq, not_true_eq_false, if_false]

/-- The effect of one pass of the loop body on the log, in both branches. -/
theorem loop_body_log (m : Libm) (e : Ext) (v : vars) :
    (loop_body m e v).log =
      v.log ++ (if e.view ≠ 0 then [Call.display_cart v.s] else []) ++
        [Call.ase_output v.box,
         Call.update_eligibilities_traces v.box (e.ase_output v.box),
         Call.update_state (ofInt (FORCE * e.ase_output v.box)),
         Call.decode_state] ++
        (if (update_state m v.s (ofInt (FORCE * e.ase_output v.box))).2 ≠ 0 then
          [Call.update_info (v.failures + 1) (max v.maxd (v.duration + 1)),
           Call.set_state (ofInt 0) (ofInt 0) (ofInt 0) (ofInt 0),
           Call.decode_state,
           Call.secondary_reinforce (-1),
           Call.update_weights (e.secondary_reinforce (-1)),
           Call.clear_eligibilities_traces]
        else
          [Call.ace_output
             (decode_state (update_state m v.s (ofInt (FORCE * e.ase_output v.box))).1),
           Call.secondary_reinforce 0,
           Call.update_weights (e.secondary_reinforce 0),
           Call.decay_eligibilities_traces]) := by
  by_cases h : (update_state m v.s (ofInt (FORCE * e.ase_output v.box))).2 ≠ 0
  · have h' : (act_and_step m e v).fail ≠ 0 := by rw [act_and_step_fail]; exact h
    obtain ⟨-, -, -, -, -, -, -, hr, hfl, hlog⟩ := on_failure_fields (act_and_step m e v)
    obtain ⟨-, -, -, -, -, -, -, -, -, -, hlog2⟩ := learn_fields e (on_failure (act_and_step m e v))
    rw [loop_body_of_fail m e v h, hlog2, hlog, hr, hfl, if_pos h', if_pos h,
      act_and_step_log, act_and_step_failures, act_and_step_maxd, act_and_step_duration]
    simp only [List.append_assoc, List.cons_append, List.nil_append]
  · have h0 : (update_state m v.s (ofInt (FORCE * e.ase_output v.box))).2 = 0 := not_not.mp h
    have h' : ¬ (act_and_step m e v).fail ≠ 0 := by rw [act_and_step_fail]; exact h
    obtain ⟨-, -, -, -, -, -, -, hr, hfl, hlog⟩ := on_success_fields e (act_and_step m e v)
    obtain ⟨-, -, -, -, -, -, -, -, -, -, hlog2⟩ := learn_fields e (on_success e (act_and_step m e v))
    rw [loop_body_of_ok m e v h0, hlog2, hlog, hr, hfl, if_neg h', if_neg h,
      act_and_step_log, act_and_step_box]
    simp only [List.append_assoc, List.cons_append, List.nil_append]

/-- C8: in every pass of the loop in which `update_state` reports failure,
whatever the variables and the controller outputs before it, the pass ends
with the four state fields equal to zero, `duration` equal to 0 and `box`
equal to 85, and the first learning-controller call of the next pass is
`ase_output(85)`. -/
theorem failure_resets (m : Libm) (e : Ext) (v : vars)
    (h : (update_state m v.s (ofInt (FORCE * e.ase_output v.box))).2 ≠ 0) :
    (loop_body m e v).s = ⟨num 0, num 0, num 0, num 0⟩ ∧
    (loop_body m e v).duration = 0 ∧
    (loop_body m e v).box = 85 ∧
    ∀ e' : Ext, ∃ rest : List Call,
      (loop_body m e' ((loop_body m e v).call .read_key)).log =
        ((loop_body m e v).call .read_key).log ++
          (if e'.view ≠ 0 then [Call.display_cart ⟨num 0, num 0, num 0, num 0⟩] else []) ++
          Call.ase_output 85 :: rest := by
  obtain ⟨hs, -, hd, -, -, hb, -, -, -, -⟩ := on_failure_fields (act_and_step m e v)
  obtain ⟨hs2, -, hd2, -, -, hb2, -, -, -, -, -⟩ :=
    learn_fields e (on_failure (act_and_step m e v))
  have e1 : (loop_body m e v).s = ⟨num 0, num 0, num 0, num 0⟩ := by
    rw [loop_body_of_fail m e v h, hs2, hs]
    simp [set_state, ofInt]
  have e2 : (loop_body m e v).box = 85 := by
    rw [loop_body_of_fail m e v h, hb2, hb, decode_state_reset]
  refine ⟨e1, ?_, e2, fun e' => ?_⟩
  · rw [loop_body_of_fail m e v h, hd2, hd]
  · rw [loop_body_log]
    simp only [call_box, call_s, e1, e2, List.append_assoc, List.cons_append]
    exact ⟨_, rfl⟩

/-- Instance of C8: the cart 1 mm from the right block moving right at 1 m/s,
pushed right; the step fails and the pass ends in box 85. -/
theorem failure_resets_witness :
    (update_state taylor_libm near_right_block.s
        (ofInt (FORCE * push_right.ase_output near_right_block.box))).2 ≠ 0 ∧
      (loop_body taylor_libm push_right near_right_block).duration = 0 ∧
      (loop_body taylor_libm push_right near_right_block).box = 85 :=
  have h : (update_state taylor_libm near_right_block.s
      (ofInt (FORCE * push_right.ase_output near_right_block.box))).2 ≠ 0 := by
    simp [update_state, out_limits, near_right_block, RIGHT_LIMIT, LEFT_LIMIT, THETA_LIMIT]
    norm_num
  ⟨h, (failure_resets taylor_libm push_right near_right_block h).2.1,
    (failure_resets taylor_libm push_right near_right_block h).2.2.1⟩

/-- C9: in every pass of the loop that is not ended by the stop flag the
calls are, in order: `ase_output(box)` giving `y`,
`update_eligibilities_traces(box, y)`, the physics step with force `10*y`,
then `ace_output(box')` on the re-decoded box only when the step did not fail
(on a failure pass `p = 0` and `ace_output` is not called), then
`secondary_reinforce(r)` with `r = -1` exactly when the step failed and
`r = 0` otherwise, then `update_weights(sr)` with the value just returned, then
`clear_eligibilities_traces()` after a failure and
`decay_eligibilities_traces()` otherwise. -/
theorem loop_body_call_order (m : Libm) (e : Ext) (v : vars) :
    (loop_body m e v).log =
      v.log ++ (if e.view ≠ 0 then [Call.display_cart v.s] else []) ++
        [Call.ase_output v.box,
         Call.update_eligibilities_traces v.box (e.ase_output v.box),
         Call.update_state (ofInt (10 * e.ase_output v.box)),
         Call.decode_state] ++
        (if (update_state m v.s (ofInt (10 * e.ase_output v.box))).2 ≠ 0 then
          [Call.update_info (v.failures + 1) (max v.maxd (v.duration + 1)),
           Call.set_state (ofInt 0) (ofInt 0) (ofInt 0) (ofInt 0),
           Call.decode_state,
           Call.secondary_reinforce (-1),
           Call.update_weights (e.secondary_reinforce (-1)),
           Call.clear_eligibilities_traces]
        else
          [Call.ace_output
             (decode_state (update_state m v.s (ofInt (10 * e.ase_output v.box))).1),
           Call.secondary_reinforce 0,
           Call.update_weights (e.secondary_reinforce 0),
           Call.decay_eligibilities_traces]) ∧
    (loop_body m e v).p =
      (if (update_state m v.s (ofInt (10 * e.ase_output v.box))).2 ≠ 0 then ofInt 0
       else e.ace_output
         (decode_state (update_state m v.s (ofInt (10 * e.ase_output v.box))).1)) ∧
    (loop_body m e v).r =
      (if (update_state m v.s (ofInt (10 * e.ase_output v.box))).2 ≠ 0 then -1 else 0) ∧
    (loop_body m e v).sr = e.secondary_reinforce (loop_body m e v).r ∧
    (∀ es : List Ext, e.stop = 0 →
      while_loop m (e :: es) v = while_loop m es (loop_body m e (v.call .read_key))) ∧
    (∀ es : List Ext, e.stop ≠ 0 →
      while_loop m (e :: es) v = (v.call .read_key, true)) := by
  have hF : (10 : Int) = FORCE := rfl
  rw [hF]
  refine ⟨loop_body_log m e v, ?_, ?_, ?_, ?_, ?_⟩
  · by_cases h : (update_state m v.s (ofInt (FORCE * e.ase_output v.box))).2 ≠ 0
    · obtain ⟨-, -, -, -, -, -, hp, -, -, -⟩ := on_failure_fields (act_and_step m e v)
      obtain ⟨-, -, -, -, -, -, hp2, -, -, -, -⟩ :=
        learn_fields e (on_failure (act_and_step m e v))
      rw [loop_body_of_fail m e v h, hp2, hp, if_pos h]
    · obtain ⟨-, -, -, -, -, -, hp, -, -, -⟩ := on_success_fields e (act_and_step m e v)
      obtain ⟨-, -, -, -, -, -, hp2, -, -, -, -⟩ :=
        learn_fields e (on_success e (act_and_step m e v))
      rw [loop_body_of_ok m e v (not_not.mp h), hp2, hp, if_neg h, act_and_step_box]
  · by_cases h : (update_state m v.s (ofInt (FORCE * e.ase_output v.box))).2 ≠ 0
    · obtain ⟨-, -, -, -, -, -, -, hr, -, -⟩ := on_failure_fields (act_and_step m e v)
      obtain ⟨-, -, -, -, -, -, -, hr2, -, -, -⟩ :=
        learn_fields e (on_failure (act_and_step m e v))
      rw [loop_body_of_fail m e v h, hr2, hr, if_pos h]
    · obtain ⟨-, -, -, -, -, -, -, hr, -, -⟩ := on_success_fields e (act_and_step m e v)
      obtain ⟨-, -, -, -, -, -, -, hr2, -, -, -⟩ :=
        learn_fields e (on_success e (act_and_step m e v))
      rw [loop_body_of_ok m e v (not_not.mp h), hr2, hr, if_neg h]
  · unfold loop_body
    obtain ⟨-, -, -, -, -, -, -, hr, hsr, -, -⟩ := learn_fields e
      (if (act_and_step m e v).fail ≠ 0 then on_failure (act_and_step m e v)
        else on_success e (act_and_step m e v))
    rw [hsr, hr]
  · intro es hstop
    simp [while_loop, hstop]
  · intro es hstop
    simp [while_loop, hstop]

/-- The value of `maxd` after one pass of the loop body. -/
theorem loop_body_maxd (m : Libm) (e : Ext) (v : vars) :
    (loop_body m e v).maxd =
      if (act_and_step m e v).fail ≠ 0 then max v.maxd (v.duration + 1) else v.maxd := by
  by_cases h : (act_and_step m e v).fail ≠ 0
  · have h' := h
    rw [act_and_step_fail] at h'
    obtain ⟨-, -, -, hm, -, -, -, -, -, -⟩ := on_failure_fields (act_and_step m e v)
    obtain ⟨-, -, -, hm2, -, -, -, -, -, -, -⟩ :=
      learn_fields e (on_failure (act_and_step m e v))
    rw [loop_body_of_fail m e v h', hm2, hm, if_pos h, act_and_step_maxd,
      act_and_step_duration]
  · have h' := h
    rw [act_and_step_fail] at h'
    obtain ⟨-, -, -, hm, -, -, -, -, -, -⟩ := on_success_fields e (act_and_step m e v)
    obtain ⟨-, -, -, hm2, -, -, -, -, -, -, -⟩ :=
      learn_fields e (on_success e (act_and_step m e v))
    rw [loop_body_of_ok m e v (not_not.mp h'), hm2, hm, if_neg h, act_and_step_maxd]

/-- The value of `duration` after one pass of the loop body. -/
theorem loop_body_duration (m : Libm) (e : Ext) (v : vars) :
    (loop_body m e v).duration =
      if (act_and_step m e v).fail ≠ 0 then 0 else v.duration + 1 := by
  by_cases h : (act_and_step m e v).fail ≠ 0
  · have h' := h
    rw [act_and_step_fail] at h'
    obtain ⟨-, -, hd, -, -, -, -, -, -, -⟩ := on_failure_fields (act_and_step m e v)
    obtain ⟨-, -, hd2, -, -, -, -, -, -, -, -⟩ :=
      learn_fields e (on_failure (act_and_step m e v))
    rw [loop_body_of_fail m e v h', hd2, hd, if_pos h]
  · have h' := h
    rw [act_and_step_fail] at h'
    obtain ⟨-, -, hd, -, -, -, -, -, -, -⟩ := on_success_fields e (act_and_step m e v)
    obtain ⟨-, -, hd2, -, -, -, -, -, -, -, -⟩ :=
      learn_fields e (on_success e (act_and_step m e v))
    rw [loop_body_of_ok m e v (not_not.mp h'), hd2, hd, if_neg h, act_and_step_duration]

/-- One pass never lowers `maxd`. -/
theorem loop_body_maxd_mono (m : Libm) (e : Ext) (v : vars) :
    v.maxd ≤ (loop_body m e v).maxd := by
  rw [loop_body_maxd]
  split_ifs
  · exact le_max_left _ _
  · exact le_refl _

/-- Unfolding of the loop on a pass that is not stopped. -/
theorem while_loop_cons_go (m : Libm) (e : Ext) (es : List Ext) (v : vars) (h : e.stop = 0) :
    while_loop m (e :: es) v = while_loop m es (loop_body m e (v.call .read_key)) := by
  simp [while_loop, h]

/-- Unfolding of the loop on a pass that is stopped. -/
theorem while_loop_cons_stop (m : Libm) (e : Ext) (es : List Ext) (v : vars) (h : e.stop ≠ 0) :
    while_loop m (e :: es) v = (v.call .read_key, true) := by
  simp [while_loop, h]

/-- Unfolding of `reset_durations` on a stopped pass. -/
theorem reset_durations_cons_stop (m : Libm) (e : Ext) (es : List Ext) (v : vars)
    (h : e.stop ≠ 0) : reset_durations m (e :: es) v = [] := by
  simp [reset_durations, h]

/-- Unfolding of `reset_durations` on a pass whose step fails. -/
theorem reset_durations_cons_fail (m : Libm) (e : Ext) (es : List Ext) (v : vars)
    (h : e.stop = 0) (hf : (act_and_step m e (v.call .read_key)).fail ≠ 0) :
    reset_durations m (e :: es) v =
      (v.duration + 1) :: reset_durations m es (loop_body m e (v.call .read_key)) := by
  simp [reset_durations, h, hf, act_and_step_duration]

/-- Unfolding of `reset_durations` on a pass whose step does not fail. -/
theorem reset_durations_cons_ok (m : Libm) (e : Ext) (es : List Ext) (v : vars)
    (h : e.stop = 0) (hf : ¬ (act_and_step m e (v.call .read_key)).fail ≠ 0) :
    reset_durations m (e :: es) v = reset_durations m es (loop_body m e (v.call .read_key)) := by
  simp [reset_durations, h, hf]

/-- Over a run, `maxd` ends at least as large as it started and as every
duration held before a reset. -/
theorem while_loop_maxd_upper (m : Libm) (es : List Ext) :
    ∀ v : vars, v.maxd ≤ (while_loop m es v).1.maxd ∧
      ∀ d ∈ reset_durations m es v, d ≤ (while_loop m es v).1.maxd := by
  induction es with
  | nil => intro v; simp [while_loop, reset_durations]
  | cons e es ih =>
    intro v
    by_cases hstop : e.stop ≠ 0
    · rw [while_loop_cons_stop m e es v hstop, reset_durations_cons_stop m e es v hstop]
      simp
    · have h0 : e.stop = 0 := not_not.mp hstop
      rw [while_loop_cons_go m e es v h0]
      obtain ⟨ih1, ih2⟩ := ih (loop_body m e (v.call .read_key))
      have hmono := loop_body_maxd_mono m e (v.call .read_key)
      have hm := loop_body_maxd m e (v.call .read_key)
      rw [call_maxd] at hmono
      refine ⟨le_trans hmono ih1, ?_⟩
      intro d hd
      by_cases hf : (act_and_step m e (v.call .read_key)).fail ≠ 0
      · rw [reset_durations_cons_fail m e es v h0 hf, List.mem_cons] at hd
        rcases hd with hd | hd
        · rw [if_pos hf, call_maxd, call_duration] at hm
          have : d ≤ (loop_body m e (v.call .read_key)).maxd := by
            rw [hm, hd]
            exact le_max_right _ _
          exact le_trans this ih1
        · exact ih2 d hd
      · rw [reset_durations_cons_ok m e es v h0 hf] at hd
        exact ih2 d hd

/-- Over a run, the final `maxd` is the initial one or one of the durations
held before a reset. -/
theorem while_loop_maxd_attained (m : Libm) (es : List Ext) :
    ∀ v : vars, (while_loop m es v).1.maxd = v.maxd ∨
      (while_loop m es v).1.maxd ∈ reset_durations m es v := by
  induction es with
  | nil => intro v; simp [while_loop]
  | cons e es ih =>
    intro v
    by_cases hstop : e.stop ≠ 0
    · rw [while_loop_cons_stop m e es v hstop]
      simp
    · have h0 : e.stop = 0 := not_not.mp hstop
      rw [while_loop_cons_go m e es v h0]
      have hm := loop_body_maxd m e (v.call .read_key)
      by_cases hf : (act_and_step m e (v.call .read_key)).fail ≠ 0
      · rw [reset_durations_cons_fail m e es v h0 hf, List.mem_cons]
        rw [if_pos hf, call_maxd, call_duration] at hm
        rcases ih (loop_body m e (v.call .read_key)) with h | h
        · rw [h, hm]
          rcases max_choice v.maxd (v.duration + 1) with hc | hc
          · left; exact hc
          · right; left; exact hc
        · right; right; exact h
      · rw [reset_durations_cons_ok m e es v h0 hf]
        rw [if_neg hf, call_maxd] at hm
        rcases ih (loop_body m e (v.call .read_key)) with h | h
        · left; rw [h, hm]
        · right; exact h

/-- Started with a non-negative `duration`, every duration held before a
reset is at least 1. -/
theorem reset_durations_pos (m : Libm) (es : List Ext) :
    ∀ v : vars, 0 ≤ v.duration → ∀ d ∈ reset_durations m es v, 1 ≤ d := by
  induction es with
  | nil => intro v _ d hd; simp [reset_durations] at hd
  | cons e es ih =>
    intro v hv d hd
    by_cases hstop : e.stop ≠ 0
    · rw [reset_durations_cons_stop m e es v hstop] at hd
      simp at hd
    · have h0 : e.stop = 0 := not_not.mp hstop
      have hdur := loop_body_duration m e (v.call .read_key)
      have hnext : 0 ≤ (loop_body m e (v.call .read_key)).duration := by
        rw [hdur, call_duration]
        split_ifs
        · exact le_refl _
        · omega
      by_cases hf : (act_and_step m e (v.call .read_key)).fail ≠ 0
      · rw [reset_durations_cons_fail m e es v h0 hf, List.mem_cons] at hd
        rcases hd with hd | hd
        · rw [hd]; omega
        · exact ih _ hnext d hd
      · rw [reset_durations_cons_ok m e es v h0 hf] at hd
        exact ih _ hnext d hd

/-- The variables set before the loop. -/
theorem main_init_counters (g : vars) :
    (main_init g).total_steps = 0 ∧ (main_init g).duration = 0 ∧
      (main_init g).maxd = 0 ∧ (main_init g).failures = 0 := ⟨rfl, rfl, rfl, rfl⟩

/-- C10: over any run of the main loop, `maxd` never decreases from one pass
to the next; once a reset has happened, `maxd` is the maximum of the
`duration` values held immediately before each reset performed so far (and it
is 0 before the first reset); at shutdown the maximum printed is
`max(maxd, duration)`, which also counts the unfinished last episode. -/
theorem maxd_running_maximum (m : Libm) (g : vars) (es : List Ext) :
    (∀ (e : Ext) (v : vars), v.maxd ≤ (loop_body m e v).maxd) ∧
    (reset_durations m es (main_init g) ≠ [] →
      (reset_durations m es (main_init g)).maximum =
        ((while_loop m es (main_init g)).1.maxd : WithBot Int)) ∧
    (reset_durations m es (main_init g) = [] → (while_loop m es (main_init g)).1.maxd = 0) ∧
    (∀ v : vars, (after_loop v).maxd = max v.maxd v.duration ∧
      (after_loop v).log = v.log ++
        [Call.terminate_graphics, Call.printf v.failures (max v.maxd v.duration)]) ∧
    (∀ v : vars, while_loop m es (main_init g) = (v, true) →
      main m g es = some (after_loop v)) := by
  obtain ⟨-, hdur0, hmaxd0, -⟩ := main_init_counters g
  have hup := while_loop_maxd_upper m es (main_init g)
  have hat := while_loop_maxd_attained m es (main_init g)
  have hpos := reset_durations_pos m es (main_init g) (le_of_eq hdur0.symm)
  refine ⟨loop_body_maxd_mono m, ?_, ?_, ?_, ?_⟩
  · intro hne
    rw [List.maximum_eq_coe_iff]
    refine ⟨?_, hup.2⟩
    rcases hat with h | h
    · exfalso
      obtain ⟨d, hd⟩ := List.exists_mem_of_ne_nil _ hne
      have h1 := hpos d hd
      have h2 := hup.2 d hd
      rw [h, hmaxd0] at h2
      omega
    · exact h
  · intro hnil
    rcases hat with h | h
    · rw [h, hmaxd0]
    · rw [hnil] at h
      simp at h
  · intro v
    unfold after_loop
    by_cases hgt : v.duration > v.maxd
    · have hmax : max v.maxd v.duration = v.duration := max_eq_right (le_of_lt hgt)
      simp [hgt, hmax, vars.call]
    · have hmax : max v.maxd v.duration = v.maxd := max_eq_left (not_lt.mp hgt)
      simp [hgt, hmax, vars.call]
  · intro v hv
    simp [main, hv]

/-! ## Counters of the loop -/

theorem act_and_step_total_steps (m : Libm) (e : Ext) (v : vars) :
    (act_and_step m e v).total_steps = v.total_steps + 1 := by
  unfold act_and_step
  by_cases hv : e.view ≠ 0 <;> simp [hv, vars.call]

/-- The value of `total_steps` after one pass of the loop body. -/
theorem loop_body_total_steps (m : Libm) (e : Ext) (v : vars) :
    (loop_body m e v).total_steps = v.total_steps + 1 := by
  by_cases h : (update_state m v.s (ofInt (FORCE * e.ase_output v.box))).2 ≠ 0
  · obtain ⟨-, ht, -⟩ := on_failure_fields (act_and_step m e v)
    obtain ⟨-, ht2, -⟩ := learn_fields e (on_failure (act_and_step m e v))
    rw [loop_body_of_fail m e v h, ht2, ht, act_and_step_total_steps]
  · obtain ⟨-, ht, -⟩ := on_success_fields e (act_and_step m e v)
    obtain ⟨-, ht2, -⟩ := learn_fields e (on_success e (act_and_step m e v))
    rw [loop_body_of_ok m e v (not_not.mp h), ht2, ht, act_and_step_total_steps]

/-- The value of `failures` after one pass of the loop body. -/
theorem loop_body_failures (m : Libm) (e : Ext) (v : vars) :
    (loop_body m e v).failures =
      if (update_state m v.s (ofInt (FORCE * e.ase_output v.box))).2 ≠ 0
      then v.failures + 1 else v.failures := by
  by_cases h : (update_state m v.s (ofInt (FORCE * e.ase_output v.box))).2 ≠ 0
  · obtain ⟨-, -, -, -, hf, -⟩ := on_failure_fields (act_and_step m e v)
    obtain ⟨-, -, -, -, hf2, -⟩ := learn_fields e (on_failure (act_and_step m e v))
    rw [loop_body_of_fail m e v h, hf2, hf, act_and_step_failures, if_pos h]
  · obtain ⟨-, -, -, -, hf, -⟩ := on_success_fields e (act_and_step m e v)
    obtain ⟨-, -, -, -, hf2, -⟩ := learn_fields e (on_success e (act_and_step m e v))
    rw [loop_body_of_ok m e v (not_not.mp h), hf2, hf, act_and_step_failures, if_neg h]

/-- Over a run, `total_steps` grows by the number of passes that were not
stopped. -/
theorem while_loop_total_steps (m : Libm) (es : List Ext) :
    ∀ v : vars, (while_loop m es v).1.total_steps =
      v.total_steps + ((es.takeWhile (fun e => decide (e.stop = 0))).length : Int) := by
  induction es with
  | nil => intro v; simp [while_loop]
  | cons e es ih =>
    intro v
    by_cases hstop : e.stop ≠ 0
    · rw [while_loop_cons_stop m e es v hstop]
      simp [List.takeWhile, hstop]
    · have h0 : e.stop = 0 := not_not.mp hstop
      rw [while_loop_cons_go m e es v h0, ih, loop_body_total_steps, call_total_steps]
      simp [List.takeWhile, h0]
      ring

/-- C11: every pass of the loop that is not ended by the stop flag increases
`total_steps` by exactly 1, whether the step fails or not, and `total_steps`
is never reset (over a run it is the number of passes executed; the stopped
pass and the code after the loop leave it unchanged); `failures` increases by
exactly 1 on a failure pass and is unchanged on a non-failure pass. -/
theorem counters_per_pass (m : Libm) (e : Ext) (v : vars) (es : List Ext) :
    (loop_body m e v).total_steps = v.total_steps + 1 ∧
    (loop_body m e v).failures =
      (if (update_state m v.s (ofInt (FORCE * e.ase_output v.box))).2 ≠ 0
       then v.failures + 1 else v.failures) ∧
    (while_loop m es v).1.total_steps =
      v.total_steps + ((es.takeWhile (fun x => decide (x.stop = 0))).length : Int) ∧
    v.total_steps ≤ (while_loop m es v).1.total_steps ∧
    (v.call .read_key).total_steps = v.total_steps ∧
    (after_loop v).total_steps = v.total_steps := by
  refine ⟨loop_body_total_steps m e v, loop_body_failures m e v,
    while_loop_total_steps m es v, ?_, rfl, ?_⟩
  · rw [while_loop_total_steps]
    have : (0 : Int) ≤ ((es.takeWhile (fun x => decide (x.stop = 0))).length : Int) :=
      Int.natCast_nonneg _
    omega
  · unfold after_loop
    by_cases hgt : v.duration > v.maxd <;> simp [hgt, vars.call]

/-- The loop is left through `break` exactly when one of the passes finds
`stop` set. -/
theorem while_loop_exit_iff (m : Libm) (es : List Ext) :
    ∀ v : vars, (while_loop m es v).2 = true ↔ ∃ e ∈ es, e.stop ≠ 0 := by
  induction es with
  | nil => intro v; simp [while_loop]
  | cons e es ih =>
    intro v
    by_cases hstop : e.stop ≠ 0
    · rw [while_loop_cons_stop m e es v hstop]
      simp only [List.mem_cons, true_iff]
      exact ⟨e, Or.inl rfl, hstop⟩
    · have h0 : e.stop = 0 := not_not.mp hstop
      rw [while_loop_cons_go m e es v h0, ih]
      constructor
      · rintro ⟨x, hx, hx'⟩
        exact ⟨x, List.mem_cons_of_mem _ hx, hx'⟩
      · rintro ⟨x, hx, hx'⟩
        rcases List.mem_cons.mp hx with rfl | hx
        · exact absurd h0 hx'
        · exact ⟨x, hx, hx'⟩

/-- C12: the stop flag is tested once per pass, right after `read_key` and
before anything else: when `stop` is set the loop exits with the cart state,
`box`, `total_steps`, `duration`, `maxd` and `failures` unchanged and with no
learning-controller call (only `read_key` is logged); when it is not set the
pass runs whatever the counters are, also with `duration ≥ MAXDUR` and
`failures ≥ MAXFAIL`: the loop ends only through the stop flag. -/
theorem stop_is_the_only_exit (m : Libm) (e : Ext) (es : List Ext) (v : vars) :
    (e.stop ≠ 0 →
      while_loop m (e :: es) v = (v.call .read_key, true) ∧
      (v.call .read_key).s = v.s ∧ (v.call .read_key).box = v.box ∧
      (v.call .read_key).total_steps = v.total_steps ∧
      (v.call .read_key).duration = v.duration ∧
      (v.call .read_key).maxd = v.maxd ∧ (v.call .read_key).failures = v.failures ∧
      (v.call .read_key).log = v.log ++ [Call.read_key]) ∧
    (e.stop = 0 →
      while_loop m (e :: es) v = while_loop m es (loop_body m e (v.call .read_key))) ∧
    ((while_loop m es v).2 = true ↔ ∃ x ∈ es, x.stop ≠ 0) ∧
    (MAXDUR ≤ v.duration → MAXFAIL ≤ v.failures → e.stop = 0 →
      (while_loop m [e] v).2 = false) := by
  refine ⟨fun h => ⟨while_loop_cons_stop m e es v h, rfl, rfl, rfl, rfl, rfl, rfl, rfl⟩,
    fun h => while_loop_cons_go m e es v h, while_loop_exit_iff m es v, ?_⟩
  intro _ _ h0
  rw [while_loop_cons_go m e [] v h0]
  rfl

/-- The step from `first_episode_near_block` under `push_right` leaves the
track. -/
theorem first_episode_near_block_fails :
    (update_state taylor_libm first_episode_near_block.s
      (ofInt (FORCE * push_right.ase_output first_episode_near_block.box))).2 ≠ 0 := by
  simp [update_state, out_limits, first_episode_near_block, RIGHT_LIMIT, LEFT_LIMIT,
    THETA_LIMIT]
  norm_num

/-- C14 as stated fails: a pass entered with `duration = 7` and `maxd = 0`
whose step fails ends with `maxd = 8`, not `max(0, 7) = 7`; the failing step
is counted. -/
theorem failing_step_is_counted :
    first_episode_near_block.duration = 7 ∧ first_episode_near_block.maxd = 0 ∧
    (update_state taylor_libm first_episode_near_block.s
      (ofInt (FORCE * push_right.ase_output first_episode_near_block.box))).2 ≠ 0 ∧
    (loop_body taylor_libm push_right first_episode_near_block).maxd = 8 ∧
    (loop_body taylor_libm push_right first_episode_near_block).maxd ≠
      max first_episode_near_block.maxd first_episode_near_block.duration := by
  have hf : (act_and_step taylor_libm push_right first_episode_near_block).fail ≠ 0 := by
    rw [act_and_step_fail]; exact first_episode_near_block_fails
  have h8 : (loop_body taylor_libm push_right first_episode_near_block).maxd = 8 := by
    rw [loop_body_maxd, if_pos hf]
    rfl
  refine ⟨rfl, rfl, first_episode_near_block_fails, h8, ?_⟩
  rw [h8]
  decide

/-- C14 (amended): `duration` is incremented at the top of every pass, before
the physics step, so in a failure pass entered with `duration = d` and
`maxd = m` the value compared with `maxd` is `d + 1` (the failing step is
counted) and the resulting `maxd` is `max(m, d + 1)`; `duration` is then reset
to 0.  In a pass that does not fail `maxd` is unchanged and `duration` ends
at `d + 1`. -/
theorem failure_pass_maxd (m : Libm) (e : Ext) (v : vars)
    (h : (update_state m v.s (ofInt (FORCE * e.ase_output v.box))).2 ≠ 0) :
    (act_and_step m e v).duration = v.duration + 1 ∧
    (loop_body m e v).maxd = max v.maxd (v.duration + 1) ∧
    (loop_body m e v).duration = 0 ∧
    (∀ (e' : Ext) (v' : vars),
      (update_state m v'.s (ofInt (FORCE * e'.ase_output v'.box))).2 = 0 →
      (loop_body m e' v').maxd = v'.maxd ∧ (loop_body m e' v').duration = v'.duration + 1) := by
  have hf : (act_and_step m e v).fail ≠ 0 := by rw [act_and_step_fail]; exact h
  refine ⟨act_and_step_duration m e v, ?_, ?_, ?_⟩
  · rw [loop_body_maxd, if_pos hf]
  · rw [loop_body_duration, if_pos hf]
  · intro e' v' h'
    have hf' : ¬ (act_and_step m e' v').fail ≠ 0 := by
      rw [act_and_step_fail, h']; simp
    rw [loop_body_maxd, if_neg hf', loop_body_duration, if_neg hf']
    exact ⟨rfl, rfl⟩

/-- Instance of the amended C14: entered with `duration = 7`, `maxd = 0`, the
failing pass ends with `maxd = max(0, 7 + 1)`. -/
theorem failure_pass_maxd_witness :
    (update_state taylor_libm first_episode_near_block.s
      (ofInt (FORCE * push_right.ase_output first_episode_near_block.box))).2 ≠ 0 ∧
    (loop_body taylor_libm push_right first_episode_near_block).maxd =
      max first_episode_near_block.maxd (first_episode_near_block.duration + 1) :=
  ⟨first_episode_near_block_fails,
    (failure_pass_maxd taylor_libm push_right first_episode_near_block
      first_episode_near_block_fails).2.1⟩

/-! ## The box follows the state -/

/-- The cart state after one pass of the loop body. -/
theorem loop_body_s (m : Libm) (e : Ext) (v : vars) :
    (loop_body m e v).s =
      if (update_state m v.s (ofInt (FORCE * e.ase_output v.box))).2 ≠ 0
      then set_state (ofInt 0) (ofInt 0) (ofInt 0) (ofInt 0)
      else (update_state m v.s (ofInt (FORCE * e.ase_output v.box))).1 := by
  by_cases h : (update_state m v.s (ofInt (FORCE * e.ase_output v.box))).2 ≠ 0
  · obtain ⟨hs, -⟩ := on_failure_fields (act_and_step m e v)
    obtain ⟨hs2, -⟩ := learn_fields e (on_failure (act_and_step m e v))
    rw [loop_body_of_fail m e v h, hs2, hs, if_pos h]
  · obtain ⟨hs, -⟩ := on_success_fields e (act_and_step m e v)
    obtain ⟨hs2, -⟩ := learn_fields e (on_success e (act_and_step m e v))
    rw [loop_body_of_ok m e v (not_not.mp h), hs2, hs, act_and_step_s, if_neg h]

/-- The box after one pass of the loop body. -/
theorem loop_body_box (m : Libm) (e : Ext) (v : vars) :
    (loop_body m e v).box =
      if (update_state m v.s (ofInt (FORCE * e.ase_output v.box))).2 ≠ 0
      then decode_state (set_state (ofInt 0) (ofInt 0) (ofInt 0) (ofInt 0))
      else decode_state (update_state m v.s (ofInt (FORCE * e.ase_output v.box))).1 := by
  by_cases h : (update_state m v.s (ofInt (FORCE * e.ase_output v.box))).2 ≠ 0
  · obtain ⟨-, -, -, -, -, hb, -⟩ := on_failure_fields (act_and_step m e v)
    obtain ⟨-, -, -, -, -, hb2, -⟩ := learn_fields e (on_failure (act_and_step m e v))
    rw [loop_body_of_fail m e v h, hb2, hb, if_pos h]
  · obtain ⟨-, -, -, -, -, hb, -⟩ := on_success_fields e (act_and_step m e v)
    obtain ⟨-, -, -, -, -, hb2, -⟩ := learn_fields e (on_success e (act_and_step m e v))
    rw [loop_body_of_ok m e v (not_not.mp h), hb2, hb, act_and_step_box, if_neg h]

/-- After any pass the box is the decoding of the state. -/
theorem loop_body_box_decodes (m : Libm) (e : Ext) (v : vars) :
    (loop_body m e v).box = decode_state (loop_body m e v).s := by
  rw [loop_body_box, loop_body_s]
  split_ifs <;> rfl

/-- Over a run started with the box of the state, the box stays the decoding
of the state. -/
theorem while_loop_box_decodes (m : Libm) (es : List Ext) :
    ∀ v : vars, v.box = decode_state v.s →
      (while_loop m es v).1.box = decode_state (while_loop m es v).1.s := by
  induction es with
  | nil => intro v hv; exact hv
  | cons e es ih =>
    intro v hv
    by_cases hstop : e.stop ≠ 0
    · rw [while_loop_cons_stop m e es v hstop]
      exact hv
    · rw [while_loop_cons_go m e es v (not_not.mp hstop)]
      exact ih _ (loop_body_box_decodes m e _)

/-- C15: at the top of every pass of the loop (initially, and after every
failure or non-failure pass) `box` equals `decode_state` of the current cart
state, so the box given to `ase_output` and `update_eligibilities_traces` is
the quantization of the state to which the force is then applied. -/
theorem box_decodes_state_at_top (m : Libm) (g : vars) (es : List Ext) (e : Ext) :
    (main_init g).box = decode_state (main_init g).s ∧
    (∀ (x : Ext) (v : vars), (loop_body m x v).box = decode_state (loop_body m x v).s) ∧
    (while_loop m es (main_init g)).1.box =
      decode_state (while_loop m es (main_init g)).1.s ∧
    (act_and_step m e (while_loop m es (main_init g)).1).log =
      (while_loop m es (main_init g)).1.log ++
        (if e.view ≠ 0 then [Call.display_cart (while_loop m es (main_init g)).1.s] else []) ++
        [Call.ase_output (decode_state (while_loop m es (main_init g)).1.s),
         Call.update_eligibilities_traces (decode_state (while_loop m es (main_init g)).1.s)
           (e.ase_output (decode_state (while_loop m es (main_init g)).1.s)),
         Call.update_state
           (ofInt (FORCE * e.ase_output (decode_state (while_loop m es (main_init g)).1.s))),
         Call.decode_state] ∧
    (act_and_step m e (while_loop m es (main_init g)).1).s =
      (update_state m (while_loop m es (main_init g)).1.s
        (ofInt (FORCE * e.ase_output (decode_state (while_loop m es (main_init g)).1.s)))).1 := by
  have h0 : (main_init g).box = decode_state (main_init g).s := rfl
  have hb := while_loop_box_decodes m es (main_init g) h0
  refine ⟨h0, loop_body_box_decodes m, hb, ?_, ?_⟩
  · rw [act_and_step_log, hb]
  · rw [act_and_step_s, hb]

/-! ## The two decoders agree -/

/-- C17: the active additive `decode_state` and the commented-out "second
option" are the same function: for every state the active value equals
`decode_x(pos) + decode_v(speed)*3 + decode_t(theta)*3*3 + decode_w(omega)*3*3*6`,
the per-axis decoders returning bin numbers in 0..2, 0..2, 0..5 and 0..2. -/
theorem decode_state_eq_second_option (s : state) :
    decode_state s = decode_state_second_option s ∧
    decode_state s =
      decode_x s.pos + decode_v s.speed * 3 + decode_t s.theta * 3 * 3 +
        decode_w s.omega * 3 * 3 * 6 ∧
    (0 ≤ decode_x s.pos ∧ decode_x s.pos ≤ 2) ∧
    (0 ≤ decode_v s.speed ∧ decode_v s.speed ≤ 2) ∧
    (0 ≤ decode_t s.theta ∧ decode_t s.theta ≤ 5) ∧
    (0 ≤ decode_w s.omega ∧ decode_w s.omega ≤ 2) := by
  have h := decode_state_eq_bins s
  refine ⟨?_, ?_, decode_x_range _, decode_v_range _, decode_t_range _, decode_w_range _⟩
  · rw [h]
    simp only [decode_state_second_option, NBX, NBV, NBT]
    ring
  · rw [h]; ring

/-! ## Physics steps on numeric states -/

theorem t_acc_eq_val (m : Libm) (x v : CFloat) (t w f : ℚ) :
    t_acc m ⟨x, v, num t, num w⟩ (num f) = num (t_acc_val m t w f) :=
  t_acc_num m x v t w f

theorem x_acc_eq_val (m : Libm) (x v : CFloat) (t w f : ℚ) :
    x_acc m ⟨x, v, num t, num w⟩ (num f) = num (x_acc_val m t w f) :=
  x_acc_num m x v t w f (t_acc_val m t w f) (t_acc_num m x v t w f)

/-- One physics step on a numeric state with a numeric force. -/
theorem update_state_num (m : Libm) (p v t w f : ℚ) :
    update_state m ⟨num p, num v, num t, num w⟩ (num f) =
      (⟨num (p + v * 0.01), num (v + x_acc_val m t w f * 0.01), num (t + w * 0.01),
        num (w + t_acc_val m t w f * 0.01)⟩,
       if p + v * 0.01 > 3.0 ∨ p + v * 0.01 < -3.0 ∨ |t + w * 0.01| > 0.2 then 1 else 0) := by
  simp only [update_state, t_acc_eq_val, x_acc_eq_val, add_num_num, mul_num_num,
    out_limits_num]

/-- The zero state installed by `set_state(0,0,0,0)` is numeric. -/
theorem set_state_zero :
    set_state (ofInt 0) (ofInt 0) (ofInt 0) (ofInt 0) = ⟨num 0, num 0, num 0, num 0⟩ := by
  simp [set_state, ofInt]

/-- The accelerations at rest under the force `10`. -/
theorem acc_val_at_rest (m : Libm) (hc : m.cos 0 = 1) (hs : m.sin 0 = 0) :
    t_acc_val m 0 0 10 = -20 ∧ x_acc_val m 0 0 10 = 10 := by
  have ht : t_acc_val m 0 0 10 = -20 := by
    simp only [t_acc_val, hc, hs]; norm_num
  refine ⟨ht, ?_⟩
  simp only [x_acc_val, ht, hc, hs]; norm_num

/-- C13 as stated fails: one step from the zero state with force `+10` leaves
the angle equal to 0, not negative (whatever the library functions are). -/
theorem one_step_angle_stays_zero :
    (update_state taylor_libm (set_state (ofInt 0) (ofInt 0) (ofInt 0) (ofInt 0))
      (ofInt (FORCE * 1))).1.theta = num 0 ∧
    ((update_state taylor_libm (set_state (ofInt 0) (ofInt 0) (ofInt 0) (ofInt 0))
      (ofInt (FORCE * 1))).1.theta).lt (num 0) = false ∧
    (∀ m : Libm, (update_state m (set_state (ofInt 0) (ofInt 0) (ofInt 0) (ofInt 0))
      (ofInt (FORCE * 1))).1.theta = num 0) := by
  have h : ∀ m : Libm, (update_state m (set_state (ofInt 0) (ofInt 0) (ofInt 0) (ofInt 0))
      (ofInt (FORCE * 1))).1.theta = num 0 := by
    intro m
    have e2 : ofInt (FORCE * 1) = num 10 := by simp [ofInt, FORCE]
    rw [set_state_zero, e2, update_state_num]
    simp
  refine ⟨h _, ?_, h⟩
  rw [h]
  simp

/-- C13 (amended): one `update_state` step from the zero state with the force
of action `+1` (`F = +10`) gives `pos` equal to 0, `speed > 0` and `theta`
equal to 0 (the angle is not negative after that one step; it is the angular
velocity that has become negative), and `update_state` returns 0. -/
theorem one_step_from_rest (m : Libm) (hc : m.cos 0 = 1) (hs : m.sin 0 = 0) :
    ∃ v w : ℚ, 0 < v ∧ w < 0 ∧
      update_state m (set_state (ofInt 0) (ofInt 0) (ofInt 0) (ofInt 0)) (ofInt (FORCE * 1)) =
        (⟨num 0, num v, num 0, num w⟩, 0) := by
  have e2 : ofInt (FORCE * 1) = num 10 := by simp [ofInt, FORCE]
  obtain ⟨ht, hx⟩ := acc_val_at_rest m hc hs
  refine ⟨1 / 10, -1 / 5, by norm_num, by norm_num, ?_⟩
  rw [set_state_zero, e2, update_state_num, ht, hx]
  norm_num

/-- Instance of the amended C13 with the polynomial stand-in library. -/
theorem one_step_from_rest_witness :
    taylor_libm.cos 0 = 1 ∧ taylor_libm.sin 0 = 0 ∧
    ∃ v w : ℚ, 0 < v ∧ w < 0 ∧
      update_state taylor_libm (set_state (ofInt 0) (ofInt 0) (ofInt 0) (ofInt 0))
          (ofInt (FORCE * 1)) =
        (⟨num 0, num v, num 0, num w⟩, 0) :=
  ⟨by simp [taylor_libm], by simp [taylor_libm],
    one_step_from_rest taylor_libm (by simp [taylor_libm]) (by simp [taylor_libm])⟩

/-! ## Invariants of the counters -/

/-- One pass of the loop body keeps the counters related. -/
theorem loop_body_counters_ok (m : Libm) (e : Ext) (v : vars) (h : counters_ok v) :
    counters_ok (loop_body m e v) := by
  obtain ⟨hd, hf, hm, hlo, hhi, hz⟩ := h
  have e1 := loop_body_total_steps m e v
  have e2 := loop_body_failures m e v
  have e3 := loop_body_maxd m e v
  have e4 := loop_body_duration m e v
  rw [act_and_step_fail] at e3 e4
  unfold counters_ok
  by_cases hfail : (update_state m v.s (ofInt (FORCE * e.ase_output v.box))).2 ≠ 0
  · rw [if_pos hfail] at e2 e3 e4
    rw [e1, e2, e3, e4]
    have hM1 : v.maxd ≤ max v.maxd (v.duration + 1) := le_max_left _ _
    have hM2 : v.duration + 1 ≤ max v.maxd (v.duration + 1) := le_max_right _ _
    have hmul : v.failures * v.maxd ≤ v.failures * max v.maxd (v.duration + 1) :=
      mul_le_mul_of_nonneg_left hM1 hf
    refine ⟨le_refl _, by omega, by omega, by omega, ?_, by omega⟩
    have : (v.failures + 1) * max v.maxd (v.duration + 1)
        = v.failures * max v.maxd (v.duration + 1) + max v.maxd (v.duration + 1) := by ring
    rw [this]
    omega
  · rw [if_neg hfail] at e2 e3 e4
    rw [e1, e2, e3, e4]
    exact ⟨by omega, hf, hm, by omega, by omega, hz⟩

/-- The counters stay related over a run. -/
theorem while_loop_counters_ok (m : Libm) (es : List Ext) :
    ∀ v : vars, counters_ok v → counters_ok (while_loop m es v).1 := by
  induction es with
  | nil => intro v hv; exact hv
  | cons e es ih =>
    intro v hv
    by_cases hstop : e.stop ≠ 0
    · rw [while_loop_cons_stop m e es v hstop]
      exact hv
    · rw [while_loop_cons_go m e es v (not_not.mp hstop)]
      exact ih _ (loop_body_counters_ok m e _ hv)

/-- Over a run, `failures` grows by the number of resets and
`total_steps - duration` by the sum of the durations held before them. -/
theorem while_loop_episodes (m : Libm) (es : List Ext) :
    ∀ v : vars,
      (while_loop m es v).1.failures = v.failures + ((reset_durations m es v).length : Int) ∧
      (while_loop m es v).1.total_steps - (while_loop m es v).1.duration =
        v.total_steps - v.duration + (reset_durations m es v).sum := by
  induction es with
  | nil => intro v; simp [while_loop, reset_durations]
  | cons e es ih =>
    intro v
    by_cases hstop : e.stop ≠ 0
    · rw [while_loop_cons_stop m e es v hstop, reset_durations_cons_stop m e es v hstop]
      simp
    · have h0 : e.stop = 0 := not_not.mp hstop
      rw [while_loop_cons_go m e es v h0]
      obtain ⟨ih1, ih2⟩ := ih (loop_body m e (v.call .read_key))
      have e1 := loop_body_total_steps m e (v.call .read_key)
      have e2 := loop_body_failures m e (v.call .read_key)
      have e4 := loop_body_duration m e (v.call .read_key)
      rw [call_total_steps] at e1
      rw [call_failures] at e2
      rw [call_duration] at e4
      by_cases hf : (act_and_step m e (v.call .read_key)).fail ≠ 0
      · have hf' := hf
        rw [act_and_step_fail] at hf'
        rw [if_pos hf'] at e2
        rw [if_pos hf] at e4
        rw [reset_durations_cons_fail m e es v h0 hf, ih1, ih2, e1, e2, e4]
        simp only [List.length_cons, List.sum_cons, Nat.cast_add, Nat.cast_one]
        constructor <;> ring
      · have hf' := hf
        rw [act_and_step_fail] at hf'
        rw [if_neg hf'] at e2
        rw [if_neg hf] at e4
        rw [reset_durations_cons_ok m e es v h0 hf, ih1, ih2, e1, e2, e4]
        constructor <;> ring

/-- The counters set before the loop are related. -/
theorem main_init_counters_ok (g : vars) : counters_ok (main_init g) := by
  obtain ⟨h1, h2, h3, h4⟩ := main_init_counters g
  unfold counters_ok
  rw [h1, h2, h3, h4]
  simp

/-- C19: at the top of every pass of the loop, for every sequence of step
outcomes, `failures + duration ≤ total_steps ≤ failures * maxd + duration`;
while no failure has occurred `duration = total_steps` and `maxd = 0`; and
every completed episode is counted with at least one and at most `maxd` steps
(`failures` is the number of completed episodes and `total_steps` is the sum
of their lengths plus `duration`). -/
theorem counters_invariant (m : Libm) (g : vars) (es : List Ext) :
    (while_loop m es (main_init g)).1.failures + (while_loop m es (main_init g)).1.duration ≤
      (while_loop m es (main_init g)).1.total_steps ∧
    (while_loop m es (main_init g)).1.total_steps ≤
      (while_loop m es (main_init g)).1.failures * (while_loop m es (main_init g)).1.maxd +
        (while_loop m es (main_init g)).1.duration ∧
    ((while_loop m es (main_init g)).1.failures = 0 →
      (while_loop m es (main_init g)).1.duration =
        (while_loop m es (main_init g)).1.total_steps ∧
      (while_loop m es (main_init g)).1.maxd = 0) ∧
    (∀ d ∈ reset_durations m es (main_init g),
      1 ≤ d ∧ d ≤ (while_loop m es (main_init g)).1.maxd) ∧
    (while_loop m es (main_init g)).1.failures =
      ((reset_durations m es (main_init g)).length : Int) ∧
    (while_loop m es (main_init g)).1.total_steps =
      (reset_durations m es (main_init g)).sum + (while_loop m es (main_init g)).1.duration := by
  obtain ⟨hd, hf, hm, hlo, hhi, hz⟩ :=
    while_loop_counters_ok m es (main_init g) (main_init_counters_ok g)
  obtain ⟨h1, h2, h3, h4⟩ := main_init_counters g
  obtain ⟨he1, he2⟩ := while_loop_episodes m es (main_init g)
  rw [h4] at he1
  rw [h1, h2] at he2
  refine ⟨hlo, hhi, ?_, ?_, by omega, by omega⟩
  · intro h0
    have hz' := hz h0
    rw [h0] at hlo hhi
    refine ⟨?_, hz'⟩
    simp only [zero_mul, zero_add] at hlo hhi
    omega
  · intro d hd'
    exact ⟨reset_durations_pos m es (main_init g) (le_of_eq h2.symm) d hd',
      (while_loop_maxd_upper m es (main_init g)).2 d hd'⟩

/-! ## The state at the top of a pass is within limits -/

/-- The zero state is within limits. -/
theorem within_limits_zero :
    within_limits (set_state (ofInt 0) (ofInt 0) (ofInt 0) (ofInt 0)) := by
  refine ⟨0, 0, 0, 0, set_state_zero, ?_, ?_, ?_⟩ <;> norm_num

/-- A state within limits is not reported by `out_limits`. -/
theorem out_limits_of_within (s : state) (h : within_limits s) : out_limits s = 0 := by
  obtain ⟨p, v, t, w, rfl, h1, h2, h3⟩ := h
  rw [out_limits_num, if_neg]
  rintro (h | h | h)
  · exact absurd h2 (not_le.mpr h)
  · exact absurd h1 (not_le.mpr h)
  · exact absurd h3 (not_le.mpr h)

/-- A physics step from a numeric state with an integer-valued force that
returns 0 ends within limits. -/
theorem update_state_within (m : Libm) (s : state) (y : Int) (h : within_limits s)
    (h0 : (update_state m s (ofInt y)).2 = 0) :
    within_limits (update_state m s (ofInt y)).1 := by
  obtain ⟨p, v, t, w, rfl, -, -, -⟩ := h
  unfold ofInt at h0 ⊢
  rw [update_state_num] at h0 ⊢
  simp only at h0 ⊢
  refine ⟨_, _, _, _, rfl, ?_⟩
  by_cases hc : p + v * 0.01 > 3.0 ∨ p + v * 0.01 < -3.0 ∨ |t + w * 0.01| > 0.2
  · rw [if_pos hc] at h0
    exact absurd h0 (by norm_num)
  · simp only [not_or, not_lt, gt_iff_lt] at hc
    exact ⟨hc.2.1, hc.1, hc.2.2⟩

/-- One pass of the loop body ends with a state within limits. -/
theorem loop_body_within (m : Libm) (e : Ext) (v : vars) (h : within_limits v.s) :
    within_limits (loop_body m e v).s := by
  rw [loop_body_s]
  by_cases hf : (update_state m v.s (ofInt (FORCE * e.ase_output v.box))).2 ≠ 0
  · rw [if_pos hf]
    exact within_limits_zero
  · rw [if_neg hf]
    exact update_state_within m v.s _ h (not_not.mp hf)

/-- The state stays within limits over a run. -/
theorem while_loop_within (m : Libm) (es : List Ext) :
    ∀ v : vars, within_limits v.s → within_limits (while_loop m es v).1.s := by
  induction es with
  | nil => intro v hv; exact hv
  | cons e es ih =>
    intro v hv
    by_cases hstop : e.stop ≠ 0
    · rw [while_loop_cons_stop m e es v hstop]
      exact hv
    · rw [while_loop_cons_go m e es v (not_not.mp hstop)]
      exact ih _ (loop_body_within m e _ hv)

/-- The learning-controller calls of one pass that take a box: every
`ase_output` call carries the box held at the top of the pass, and an
`ace_output` call occurs only when the physics step returned 0 and carries the
box of the state that step produced. -/
theorem pass_box_calls (m : Libm) (e : Ext) (v : vars) :
    ∀ c ∈ (loop_body m e v).log.drop v.log.length,
      (∀ b : Int, c = Call.ase_output b → b = v.box) ∧
      (∀ b : Int, c = Call.ace_output b →
        (update_state m v.s (ofInt (FORCE * e.ase_output v.box))).2 = 0 ∧
        b = decode_state (update_state m v.s (ofInt (FORCE * e.ase_output v.box))).1) := by
  intro c hc
  rw [loop_body_log, List.append_assoc, List.append_assoc, List.drop_left] at hc
  by_cases hf : (update_state m v.s (ofInt (FORCE * e.ase_output v.box))).2 ≠ 0
  · rw [if_pos hf] at hc
    by_cases hv : e.view ≠ 0
    · rw [if_pos hv] at hc
      constructor
      · rintro b rfl
        simp at hc
        exact hc
      · rintro b rfl
        simp at hc
    · rw [if_neg hv] at hc
      constructor
      · rintro b rfl
        simp at hc
        exact hc
      · rintro b rfl
        simp at hc
  · rw [if_neg hf] at hc
    by_cases hv : e.view ≠ 0
    · rw [if_pos hv] at hc
      constructor
      · rintro b rfl
        simp at hc
        exact hc
      · rintro b rfl
        simp at hc
        exact ⟨not_not.mp hf, hc⟩
    · rw [if_neg hv] at hc
      constructor
      · rintro b rfl
        simp at hc
        exact hc
      · rintro b rfl
        simp at hc
        exact ⟨not_not.mp hf, hc⟩

/-- C18: at the top of every pass of the loop, for every sequence of
controller actions, the cart state is within limits (`out_limits` returns 0:
`-3.0 ≤ pos ≤ 3.0` and `|theta| ≤ 0.2`); a state for which `update_state`
reported failure is replaced by the zero state, and its box by the box of the
zero state, before the pass ends.  Every `ase_output` call of a pass carries
the box of the state held at the top of that pass, which is within limits; an
`ace_output` call is made only when the step returned 0, with the box of the
state that step produced, which is within limits: neither function is ever
called with the box computed from a failed state. -/
theorem state_within_limits_at_top (m : Libm) (g : vars) (es : List Ext) (e : Ext) :
    out_limits (while_loop m es (main_init g)).1.s = 0 ∧
    (∃ p v t w : ℚ, (while_loop m es (main_init g)).1.s = ⟨num p, num v, num t, num w⟩ ∧
      -3.0 ≤ p ∧ p ≤ 3.0 ∧ |t| ≤ 0.2) ∧
    ((update_state m (while_loop m es (main_init g)).1.s
        (ofInt (FORCE * e.ase_output (while_loop m es (main_init g)).1.box))).2 ≠ 0 →
      (loop_body m e (while_loop m es (main_init g)).1).s =
        set_state (ofInt 0) (ofInt 0) (ofInt 0) (ofInt 0)) ∧
    ((update_state m (while_loop m es (main_init g)).1.s
        (ofInt (FORCE * e.ase_output (while_loop m es (main_init g)).1.box))).2 ≠ 0 →
      (loop_body m e (while_loop m es (main_init g)).1).box =
        decode_state (set_state (ofInt 0) (ofInt 0) (ofInt 0) (ofInt 0))) ∧
    (∀ c ∈ (loop_body m e (while_loop m es (main_init g)).1).log.drop
        (while_loop m es (main_init g)).1.log.length,
      (∀ b : Int, c = Call.ase_output b →
        b = decode_state (while_loop m es (main_init g)).1.s) ∧
      (∀ b : Int, c = Call.ace_output b →
        (update_state m (while_loop m es (main_init g)).1.s
          (ofInt (FORCE * e.ase_output (while_loop m es (main_init g)).1.box))).2 = 0 ∧
        b = decode_state (update_state m (while_loop m es (main_init g)).1.s
          (ofInt (FORCE * e.ase_output (while_loop m es (main_init g)).1.box))).1 ∧
        within_limits (update_state m (while_loop m es (main_init g)).1.s
          (ofInt (FORCE * e.ase_output (while_loop m es (main_init g)).1.box))).1 ∧
        out_limits (update_state m (while_loop m es (main_init g)).1.s
          (ofInt (FORCE * e.ase_output (while_loop m es (main_init g)).1.box))).1 = 0)) := by
  have hw : within_limits (while_loop m es (main_init g)).1.s :=
    while_loop_within m es (main_init g) within_limits_zero
  have hb : (while_loop m es (main_init g)).1.box =
      decode_state (while_loop m es (main_init g)).1.s :=
    while_loop_box_decodes m es (main_init g) rfl
  refine ⟨out_limits_of_within _ hw, hw, ?_, ?_, ?_⟩
  · intro hf
    rw [loop_body_s, if_pos hf]
  · intro hf
    rw [loop_body_box, if_pos hf]
  · intro c hc
    obtain ⟨h1, h2⟩ := pass_box_calls m e _ c hc
    constructor
    · intro b hcb
      rw [← hb]
      exact h1 b hcb
    · intro b hcb
      obtain ⟨h0, hbox⟩ := h2 b hcb
      have hw' := update_state_within m _ _ hw h0
      exact ⟨h0, hbox, hw', out_limits_of_within _ hw'⟩

/-! ## Mirror symmetry -/

namespace CFloat

@[simp] theorem nan_add (a : CFloat) : nan + a = nan := by cases a <;> rfl

@[simp] theorem add_nan (a : CFloat) : a + nan = nan := by cases a <;> rfl

@[simp] theorem nan_sub (a : CFloat) : nan - a = nan := by cases a <;> rfl

@[simp] theorem sub_nan (a : CFloat) : a - nan = nan := by cases a <;> rfl

@[simp] theorem nan_mul (a : CFloat) : nan * a = nan := by cases a <;> rfl

@[simp] theorem mul_nan (a : CFloat) : a * nan = nan := by cases a <;> rfl

@[simp] theorem nan_div (a : CFloat) : nan / a = nan := by cases a <;> rfl

@[simp] theorem div_nan (a : CFloat) : a / nan = nan := by cases a <;> rfl

/-- Negating both the start value and the rate negates an Euler update. -/
theorem neg_add_neg_mul (a b c : CFloat) : -a + -b * c = -(a + b * c) := by
  cases a <;> cases b <;> cases c <;> simp
  ring

end CFloat

/-- `out_limits` gives the same result on a state and on its negation. -/
theorem out_limits_neg (s : state) :
    out_limits ⟨-s.pos, -s.speed, -s.theta, -s.omega⟩ = out_limits s := by
  obtain ⟨x, v, t, w⟩ := s
  cases x with
  | num p =>
    cases t with
    | num a =>
      simp only [neg_num, out_limits_num, abs_neg]
      have h : (-p > 3.0 ∨ -p < -3.0 ∨ |a| > 0.2) ↔ (p > 3.0 ∨ p < -3.0 ∨ |a| > 0.2) := by
        constructor
        · rintro (h | h | h)
          · right; left; linarith
          · left; linarith
          · right; right; exact h
        · rintro (h | h | h)
          · right; left; linarith
          · left; linarith
          · right; right; exact h
      simp only [h]
    | nan =>
      simp only [out_limits, RIGHT_LIMIT, LEFT_LIMIT, THETA_LIMIT, neg_num, neg_nan, fabs_nan,
        gt_num_num, lt_num_num, gt_nan_left, Bool.or_false]
      have h : (decide (-p > 3.0) || decide (-p < -3.0)) = (decide (p > 3.0) || decide (p < -3.0)) := by
        rw [Bool.or_comm]
        congr 1
        · exact decide_eq_decide.mpr ⟨fun h => by linarith, fun h => by linarith⟩
        · exact decide_eq_decide.mpr ⟨fun h => by linarith, fun h => by linarith⟩
      rw [h]
  | nan =>
    cases t with
    | num a =>
      simp only [out_limits, RIGHT_LIMIT, LEFT_LIMIT, THETA_LIMIT, neg_num, neg_nan, fabs_num,
        abs_neg, gt_nan_left, lt_nan_left]
    | nan =>
      simp only [out_limits, neg_nan]

/-- With an even cosine and an odd sine, mirroring the arguments negates
`t_acc`. -/
theorem t_acc_neg (m : Libm) (hc : ∀ x, m.cos (-x) = m.cos x)
    (hs : ∀ x, m.sin (-x) = -m.sin x) (s : state) (F : CFloat) :
    t_acc m ⟨-s.pos, -s.speed, -s.theta, -s.omega⟩ (-F) = -(t_acc m s F) := by
  obtain ⟨x, v, t, w⟩ := s
  cases t with
  | num a =>
    cases w with
    | num b =>
      cases F with
      | num f =>
        simp only [neg_num, t_acc_eq_val, t_acc_val, hc, hs, CFloat.num.injEq]
        ring
      | nan => simp [t_acc]
    | nan => cases F <;> simp [t_acc]
  | nan => cases w <;> cases F <;> simp [t_acc]

/-- With an even cosine and an odd sine, mirroring the arguments negates
`x_acc`. -/
theorem x_acc_neg (m : Libm) (hc : ∀ x, m.cos (-x) = m.cos x)
    (hs : ∀ x, m.sin (-x) = -m.sin x) (s : state) (F : CFloat) :
    x_acc m ⟨-s.pos, -s.speed, -s.theta, -s.omega⟩ (-F) = -(x_acc m s F) := by
  obtain ⟨x, v, t, w⟩ := s
  cases t with
  | num a =>
    cases w with
    | num b =>
      cases F with
      | num f =>
        have h := t_acc_neg m hc hs ⟨x, v, num a, num b⟩ (num f)
        simp only [neg_num, t_acc_eq_val, CFloat.num.injEq] at h
        simp only [neg_num, x_acc_eq_val, x_acc_val, h, hc, hs, CFloat.num.injEq]
        ring
      | nan => simp [x_acc]
    | nan => cases F <;> simp [x_acc]
  | nan => cases w <;> cases F <;> simp [x_acc]

/-- C20: the dynamics are mirror-symmetric (for a library whose cosine is
even and whose sine is odd): `update_state` on the negated state
`(-pos, -speed, -theta, -omega)` with force `-F` yields exactly the negation
of the state obtained from `(pos, speed, theta, omega)` with force `F` and
returns the same failure flag; `out_limits` gives the same result on a state
and on its negation. -/
theorem mirror_symmetry (m : Libm) (hc : ∀ x, m.cos (-x) = m.cos x)
    (hs : ∀ x, m.sin (-x) = -m.sin x) (s : state) (F : CFloat) :
    (update_state m ⟨-s.pos, -s.speed, -s.theta, -s.omega⟩ (-F)).1 =
      ⟨-(update_state m s F).1.pos, -(update_state m s F).1.speed,
       -(update_state m s F).1.theta, -(update_state m s F).1.omega⟩ ∧
    (update_state m ⟨-s.pos, -s.speed, -s.theta, -s.omega⟩ (-F)).2 =
      (update_state m s F).2 ∧
    out_limits ⟨-s.pos, -s.speed, -s.theta, -s.omega⟩ = out_limits s := by
  have h1 : (update_state m ⟨-s.pos, -s.speed, -s.theta, -s.omega⟩ (-F)).1 =
      ⟨-(update_state m s F).1.pos, -(update_state m s F).1.speed,
       -(update_state m s F).1.theta, -(update_state m s F).1.omega⟩ := by
    simp only [update_state, t_acc_neg m hc hs s F, x_acc_neg m hc hs s F, neg_add_neg_mul]
  refine ⟨h1, ?_, out_limits_neg s⟩
  have h2 : (update_state m ⟨-s.pos, -s.speed, -s.theta, -s.omega⟩ (-F)).2 =
      out_limits (update_state m ⟨-s.pos, -s.speed, -s.theta, -s.omega⟩ (-F)).1 := rfl
  have h3 : (update_state m s F).2 = out_limits (update_state m s F).1 := rfl
  rw [h2, h3, h1]
  exact out_limits_neg (update_state m s F).1

/-- The polynomial stand-in library has an even cosine and an odd sine. -/
theorem taylor_libm_parity :
    (∀ x, taylor_libm.cos (-x) = taylor_libm.cos x) ∧
    (∀ x, taylor_libm.sin (-x) = -taylor_libm.sin x) := by
  constructor
  · intro x
    simp only [taylor_libm]
    ring
  · intro x
    simp only [taylor_libm]
    ring

/-- Instance of C20: the cart near the right block pushed right, and its
mirror image near the left block pushed left. -/
theorem mirror_symmetry_witness :
    (∀ x, taylor_libm.cos (-x) = taylor_libm.cos x) ∧
    (∀ x, taylor_libm.sin (-x) = -taylor_libm.sin x) ∧
    (update_state taylor_libm
        ⟨-near_right_block.s.pos, -near_right_block.s.speed, -near_right_block.s.theta,
         -near_right_block.s.omega⟩ (-(num 10))).2 =
      (update_state taylor_libm near_right_block.s (num 10)).2 :=
  ⟨taylor_libm_parity.1, taylor_libm_parity.2,
    (mirror_symmetry taylor_libm taylor_libm_parity.1 taylor_libm_parity.2
      near_right_block.s (num 10)).2.1⟩

/-! ## Constant push from rest -/

/-- Bounds on the quotient defining `t_acc`, in terms of `u = |sin theta|`,
`c = cos theta` and `q = omega^2`, for a push of magnitude 10 towards the side
the pole is not leaning to. -/
theorem acc_quotient_bounds (u c q : ℚ) (hu0 : 0 ≤ u) (hu : u ≤ 1 / 5)
    (hc0 : 49 / 50 ≤ c) (hc1 : c ≤ 1) (hq0 : 0 ≤ q) (hq : q ≤ 16) :
    -25 ≤ (-((1.0 + 0.1) * 9.8) * u - 10 * c + 0.1 * 0.5 * q * u * c) /
        (1 * (1.0 + 0.1) * 0.5 - 0.1 * 0.5 * c * c) ∧
    (-((1.0 + 0.1) * 9.8) * u - 10 * c + 0.1 * 0.5 * q * u * c) /
        (1 * (1.0 + 0.1) * 0.5 - 0.1 * 0.5 * c * c) ≤ -19 := by
  have hcc1 : c * c ≤ 1 := by nlinarith
  have hcc0 : (49 / 50 : ℚ) * (49 / 50) ≤ c * c := by nlinarith
  have hqu0 : 0 ≤ q * u := mul_nonneg hq0 hu0
  have hqu1 : q * u ≤ 16 * (1 / 5) := by nlinarith
  have hquc0 : 0 ≤ q * u * c := mul_nonneg hqu0 (by linarith)
  have hquc1 : q * u * c ≤ 16 * (1 / 5) := by nlinarith
  have hD : (0 : ℚ) < 1 * (1.0 + 0.1) * 0.5 - 0.1 * 0.5 * c * c := by
    norm_num
    nlinarith
  constructor
  · rw [le_div_iff₀ hD]
    norm_num
    nlinarith
  · rw [div_le_iff₀ hD]
    norm_num
    nlinarith

/-- Pushed right with force 10 while leaning left by at most 0.2 rad and
turning left by at most 4 rad/s, the angular acceleration is between -25 and
-19. -/
theorem t_acc_val_push_right (m : Libm) (hm : small_angle_bounds m) (θ ω : ℚ)
    (hθ0 : -(1 / 5) ≤ θ) (hθ1 : θ ≤ 0) (hω0 : -4 ≤ ω) (hω1 : ω ≤ 0) :
    -25 ≤ t_acc_val m θ ω 10 ∧ t_acc_val m θ ω 10 ≤ -19 := by
  have hab : |θ| ≤ 0.2 := by
    rw [abs_le]; constructor <;> norm_num <;> linarith
  obtain ⟨hc0, hc1, hs1, hs2⟩ := hm θ hab
  have habs : |θ| = -θ := abs_of_nonpos hθ1
  rw [habs] at hs1
  obtain ⟨hs3, hs4⟩ := abs_le.mp hs1
  have hs0 : m.sin θ ≤ 0 := by
    rcases eq_or_lt_of_le hθ1 with h | h
    · linarith
    · by_contra hpos
      have : θ * m.sin θ < 0 := mul_neg_of_neg_of_pos h (not_le.mp hpos)
      linarith
  have hq : ω * ω ≤ 16 := by nlinarith
  have hq0 : 0 ≤ ω * ω := mul_self_nonneg ω
  have key := acc_quotient_bounds (-(m.sin θ)) (m.cos θ) (ω * ω) (by linarith) (by linarith)
    hc0 hc1 hq0 hq
  have heq : t_acc_val m θ ω 10 =
      (-((1.0 + 0.1) * 9.8) * (-(m.sin θ)) - 10 * m.cos θ +
          0.1 * 0.5 * (ω * ω) * (-(m.sin θ)) * m.cos θ) /
        (1 * (1.0 + 0.1) * 0.5 - 0.1 * 0.5 * m.cos θ * m.cos θ) := by
    unfold t_acc_val
    ring
  rw [heq]
  exact key

/-- Pushed left with force 10 while leaning right by at most 0.2 rad and
turning right by at most 4 rad/s, the angular acceleration is between 19 and
25. -/
theorem t_acc_val_push_left (m : Libm) (hm : small_angle_bounds m) (θ ω : ℚ)
    (hθ0 : 0 ≤ θ) (hθ1 : θ ≤ 1 / 5) (hω0 : 0 ≤ ω) (hω1 : ω ≤ 4) :
    19 ≤ t_acc_val m θ ω (-10) ∧ t_acc_val m θ ω (-10) ≤ 25 := by
  have hab : |θ| ≤ 0.2 := by
    rw [abs_le]; constructor <;> norm_num <;> linarith
  obtain ⟨hc0, hc1, hs1, hs2⟩ := hm θ hab
  have habs : |θ| = θ := abs_of_nonneg hθ0
  rw [habs] at hs1
  obtain ⟨hs3, hs4⟩ := abs_le.mp hs1
  have hs0 : 0 ≤ m.sin θ := by
    rcases eq_or_lt_of_le hθ0 with h | h
    · linarith
    · by_contra hneg
      have : θ * m.sin θ < 0 := mul_neg_of_pos_of_neg h (not_le.mp hneg)
      linarith
  have hq : ω * ω ≤ 16 := by nlinarith
  have hq0 : 0 ≤ ω * ω := mul_self_nonneg ω
  have key := acc_quotient_bounds (m.sin θ) (m.cos θ) (ω * ω) hs0 (by linarith)
    hc0 hc1 hq0 hq
  have heq : t_acc_val m θ ω (-10) =
      -((-((1.0 + 0.1) * 9.8) * (m.sin θ) - 10 * m.cos θ +
          0.1 * 0.5 * (ω * ω) * (m.sin θ) * m.cos θ) /
        (1 * (1.0 + 0.1) * 0.5 - 0.1 * 0.5 * m.cos θ * m.cos θ)) := by
    unfold t_acc_val
    ring
  rw [heq]
  constructor <;> linarith [key.1, key.2]

/-- The two directions together: `σ = 1` is the push to the right, `σ = -1`
the push to the left. -/
theorem t_acc_val_push (m : Libm) (hm : small_angle_bounds m) (σ θ ω : ℚ)
    (hσ : σ = 1 ∨ σ = -1) (hθ0 : -(1 / 5) ≤ σ * θ) (hθ1 : σ * θ ≤ 0)
    (hω0 : -4 ≤ σ * ω) (hω1 : σ * ω ≤ 0) :
    -25 ≤ σ * t_acc_val m θ ω (σ * 10) ∧ σ * t_acc_val m θ ω (σ * 10) ≤ -19 := by
  rcases hσ with rfl | rfl
  · simp only [one_mul] at *
    exact t_acc_val_push_right m hm θ ω hθ0 hθ1 hω0 hω1
  · have e : (-1 : ℚ) * 10 = -10 := by norm_num
    rw [e]
    obtain ⟨h1, h2⟩ := t_acc_val_push_left m hm θ ω (by linarith) (by linarith)
      (by linarith) (by linarith)
    constructor <;> linarith

/-- Under a constant push of 10 from rest, as long as no step has left the
limits, after `k ≤ 16` steps the pole leans away from the push by at least
`0.00095 k (k-1)` and turns away at a rate between `0.19 k` and `0.25 k`. -/
theorem push_invariant (m : Libm) (hm : small_angle_bounds m) (σ : ℚ)
    (hσ : σ = 1 ∨ σ = -1) :
    ∀ k : Nat, k ≤ 16 →
      (∀ j, j ≤ k →
        out_limits (state_after m (num (σ * 10)) ⟨num 0, num 0, num 0, num 0⟩ j) = 0) →
      ∃ p v θ ω : ℚ,
        state_after m (num (σ * 10)) ⟨num 0, num 0, num 0, num 0⟩ k =
          ⟨num p, num v, num θ, num ω⟩ ∧
        σ * θ ≤ -(19 / 20000) * k * (k - 1) ∧ -((k : ℚ) / 4) ≤ σ * ω ∧
        σ * ω ≤ -(19 / 100) * k := by
  intro k
  induction k with
  | zero =>
    intro _ _
    refine ⟨0, 0, 0, 0, rfl, ?_, ?_, ?_⟩ <;> simp
  | succ k ih =>
    intro hk hlim
    obtain ⟨p, v, θ, ω, hs, h1, h2, h3⟩ := ih (by omega) (fun j hj => hlim j (by omega))
    have hin := hlim k (by omega)
    rw [hs, out_limits_num] at hin
    have hθ : |θ| ≤ 0.2 := by
      by_contra hcon
      rw [if_pos (Or.inr (Or.inr (not_le.mp hcon)))] at hin
      exact absurd hin (by norm_num)
    have hk15 : (k : ℚ) ≤ 15 := by
      have : k ≤ 15 := by omega
      exact_mod_cast this
    have hk0 : (0 : ℚ) ≤ k := Nat.cast_nonneg k
    have hkk : (0 : ℚ) ≤ k * (k - 1) := by
      rcases Nat.eq_zero_or_pos k with h | h
      · simp [h]
      · have : (1 : ℚ) ≤ k := by exact_mod_cast h
        nlinarith
    have hσθ : -(1 / 5) ≤ σ * θ := by
      obtain ⟨ha, hb⟩ := abs_le.mp hθ
      norm_num at ha hb
      rcases hσ with rfl | rfl <;> linarith
    obtain ⟨a1, a2⟩ := t_acc_val_push m hm σ θ ω hσ hσθ (by nlinarith) (by linarith)
      (by nlinarith)
    refine ⟨p + v * 0.01, v + x_acc_val m θ ω (σ * 10) * 0.01, θ + ω * 0.01,
      ω + t_acc_val m θ ω (σ * 10) * 0.01, ?_, ?_, ?_, ?_⟩
    · show (update_state m (state_after m (num (σ * 10)) ⟨num 0, num 0, num 0, num 0⟩ k)
        (num (σ * 10))).1 = _
      rw [hs, update_state_num]
    · push_cast
      have e : σ * (θ + ω * 0.01) = σ * θ + σ * ω * 0.01 := by ring
      rw [e]
      norm_num
      nlinarith
    · push_cast
      have e : σ * (ω + t_acc_val m θ ω (σ * 10) * 0.01)
          = σ * ω + σ * t_acc_val m θ ω (σ * 10) * 0.01 := by ring
      rw [e]
      norm_num
      linarith
    · push_cast
      have e : σ * (ω + t_acc_val m θ ω (σ * 10) * 0.01)
          = σ * ω + σ * t_acc_val m θ ω (σ * 10) * 0.01 := by ring
      rw [e]
      norm_num
      linarith

/-- The value returned by the `n`-th call is `out_limits` of the state it
leaves. -/
theorem nth_return_eq (m : Libm) (F : CFloat) (s : state) (n : Nat) (hn : 1 ≤ n) :
    nth_return m F s n = out_limits (state_after m F s n) := by
  obtain ⟨k, rfl⟩ : ∃ k, n = k + 1 := ⟨n - 1, by omega⟩
  rfl

/-- `out_limits` returns 0 or 1. -/
theorem out_limits_zero_or_one (s : state) : out_limits s = 0 ∨ out_limits s = 1 := by
  unfold out_limits
  split_ifs
  · exact Or.inr rfl
  · exact Or.inl rfl

/-- Every call of `update_state` returns 0 or 1. -/
theorem nth_return_zero_or_one (m : Libm) (F : CFloat) (s : state) (n : Nat) :
    nth_return m F s n = 0 ∨ nth_return m F s n = 1 :=
  out_limits_zero_or_one _

/-- Under a constant push of 10 from rest one of the first 16 calls reports
failure. -/
theorem push_fails_within_16 (m : Libm) (hm : small_angle_bounds m) (σ : ℚ)
    (hσ : σ = 1 ∨ σ = -1) :
    ∃ j, 1 ≤ j ∧ j ≤ 16 ∧
      nth_return m (num (σ * 10)) ⟨num 0, num 0, num 0, num 0⟩ j ≠ 0 := by
  by_contra hno
  push_neg at hno
  have hlim : ∀ j, j ≤ 16 →
      out_limits (state_after m (num (σ * 10)) ⟨num 0, num 0, num 0, num 0⟩ j) = 0 := by
    intro j hj
    rcases Nat.eq_zero_or_pos j with h | h
    · rw [h]
      show out_limits ⟨num 0, num 0, num 0, num 0⟩ = 0
      rw [out_limits_num]
      norm_num
    · rw [← nth_return_eq m _ _ j h]
      exact hno j h hj
  obtain ⟨p, v, θ, ω, hs, h1, -, -⟩ := push_invariant m hm σ hσ 16 (le_refl _) hlim
  have h16 := hlim 16 (le_refl _)
  rw [hs, out_limits_num] at h16
  have hθ : |θ| ≤ 0.2 := by
    by_contra hcon
    rw [if_pos (Or.inr (Or.inr (not_le.mp hcon)))] at h16
    exact absurd h16 (by norm_num)
  obtain ⟨ha, hb⟩ := abs_le.mp hθ
  norm_num at ha hb h1
  rcases hσ with rfl | rfl <;> linarith

/-- A sequence of flags with values 0 and 1 that is not 0 throughout `1..N`
has exactly one first index in `1..N` where it is 1. -/
theorem first_failure_unique (f : Nat → Int) (N : Nat) (h01 : ∀ n, f n = 0 ∨ f n = 1)
    (hex : ∃ j, 1 ≤ j ∧ j ≤ N ∧ f j ≠ 0) :
    ∃! n, 1 ≤ n ∧ n ≤ N ∧ f n = 1 ∧ ∀ k, 1 ≤ k → k < n → f k = 0 := by
  classical
  have hex' : ∃ j, 1 ≤ j ∧ f j ≠ 0 := by
    obtain ⟨j, h1, -, h3⟩ := hex
    exact ⟨j, h1, h3⟩
  obtain ⟨j, hj1, hjN, hj3⟩ := hex
  have hspec := Nat.find_spec hex'
  have hle : Nat.find hex' ≤ j := Nat.find_min' hex' ⟨hj1, hj3⟩
  refine ⟨Nat.find hex', ⟨hspec.1, le_trans hle hjN, ?_, ?_⟩, ?_⟩
  · rcases h01 (Nat.find hex') with h | h
    · exact absurd h hspec.2
    · exact h
  · intro k hk1 hk
    by_contra hne
    exact Nat.find_min hex' hk ⟨hk1, hne⟩
  · rintro n ⟨hn1, -, hn3, hn4⟩
    have hn : f n ≠ 0 := by rw [hn3]; norm_num
    have h1 : Nat.find hex' ≤ n := Nat.find_min' hex' ⟨hn1, hn⟩
    rcases Nat.lt_or_ge (Nat.find hex') n with h | h
    · exact absurd (hn4 _ hspec.1 h) hspec.2
    · omega

/-- C16: from the zero state, applying `update_state` repeatedly with the
same signed force (`F = +10` every step, and likewise `F = -10` every step),
there is exactly one step count `n ≥ 1` (and `n ≤ 16`) such that the `n`-th
call returns 1 while all earlier calls return 0.  The library cosine and sine
are assumed to satisfy `small_angle_bounds`. -/
theorem constant_push_first_failure (m : Libm) (hm : small_angle_bounds m) :
    (∃! n : Nat, 1 ≤ n ∧ n ≤ 16 ∧
      nth_return m (ofInt (FORCE * 1))
        (set_state (ofInt 0) (ofInt 0) (ofInt 0) (ofInt 0)) n = 1 ∧
      ∀ k, 1 ≤ k → k < n →
        nth_return m (ofInt (FORCE * 1))
          (set_state (ofInt 0) (ofInt 0) (ofInt 0) (ofInt 0)) k = 0) ∧
    (∃! n : Nat, 1 ≤ n ∧ n ≤ 16 ∧
      nth_return m (ofInt (FORCE * (-1)))
        (set_state (ofInt 0) (ofInt 0) (ofInt 0) (ofInt 0)) n = 1 ∧
      ∀ k, 1 ≤ k → k < n →
        nth_return m (ofInt (FORCE * (-1)))
          (set_state (ofInt 0) (ofInt 0) (ofInt 0) (ofInt 0)) k = 0) := by
  have e1 : ofInt (FORCE * 1) = num (1 * 10) := by simp [ofInt, FORCE]
  have e2 : ofInt (FORCE * (-1)) = num (-1 * 10) := by simp [ofInt, FORCE]
  rw [e1, e2, set_state_zero]
  exact ⟨first_failure_unique _ 16 (nth_return_zero_or_one m _ _)
      (push_fails_within_16 m hm 1 (Or.inl rfl)),
    first_failure_unique _ 16 (nth_return_zero_or_one m _ _)
      (push_fails_within_16 m hm (-1) (Or.inr rfl))⟩

/-- The polynomial stand-in library satisfies `small_angle_bounds`. -/
theorem taylor_libm_small_angle : small_angle_bounds taylor_libm := by
  intro x hx
  obtain ⟨ha, hb⟩ := abs_le.mp hx
  norm_num at ha hb
  have hy0 : 0 ≤ x ^ 2 := sq_nonneg x
  have hy1 : x ^ 2 ≤ 1 / 25 := by nlinarith
  have hy2 : 0 ≤ x ^ 4 := by positivity
  have hy3 : x ^ 4 ≤ x ^ 2 := by nlinarith
  have hg0 : 0 ≤ 1 - x ^ 2 / 6 + x ^ 4 / 120 := by linarith
  have hg1 : 1 - x ^ 2 / 6 + x ^ 4 / 120 ≤ 1 := by linarith
  have hsin : taylor_libm.sin x = x * (1 - x ^ 2 / 6 + x ^ 4 / 120) := by
    simp only [taylor_libm]; ring
  refine ⟨?_, ?_, ?_, ?_⟩
  · simp only [taylor_libm]; linarith
  · simp only [taylor_libm]; linarith
  · rw [hsin, abs_mul, abs_of_nonneg hg0]
    exact mul_le_of_le_one_right (abs_nonneg x) hg1
  · rw [hsin]
    have : x * (x * (1 - x ^ 2 / 6 + x ^ 4 / 120)) = x ^ 2 * (1 - x ^ 2 / 6 + x ^ 4 / 120) := by
      ring
    rw [this]
    exact mul_nonneg hy0 hg0

/-- Instance of C16 with the polynomial stand-in library. -/
theorem constant_push_first_failure_witness :
    small_angle_bounds taylor_libm ∧
    ∃! n : Nat, 1 ≤ n ∧ n ≤ 16 ∧
      nth_return taylor_libm (ofInt (FORCE * 1))
        (set_state (ofInt 0) (ofInt 0) (ofInt 0) (ofInt 0)) n = 1 ∧
      ∀ k, 1 ≤ k → k < n →
        nth_return taylor_libm (ofInt (FORCE * 1))
          (set_state (ofInt 0) (ofInt 0) (ofInt 0) (ofInt 0)) k = 0 :=
  ⟨taylor_libm_small_angle, (constant_push_first_failure taylor_libm taylor_libm_small_angle).1⟩

end Cart
